import Mathlib

/-!
Verification of the Move compiler's naming and typing translation passes
(`naming/translate.rs` and `typing/translate.rs`), shallowly embedded.

Conventions:
* Source locations are abstract (`Loc := Nat`).
* `BTreeMap` values are modelled as association lists where insertion
  prepends and lookup takes the first match (so lookup agrees with the
  overwrite semantics of the map).
* Mutable context state is threaded explicitly; each embedded function
  returns its updated context.
* Functions from `typing/core.rs` and the shared ASTs, which are not part
  of the sources under verification, are modelled from the specification
  and marked `Modelled from the spec:` in their doc comments.
-/

namespace Move

/-- Abstract source location. -/
abbrev Loc := Nat

/-- Interned identifier (`Symbol` in the source). -/
abbrev Symbol := String

/-- Field names (`Field` wraps a `Name`); locations are dropped. -/
abbrev Field := String

/-- Diagnostic codes used by the embedded fragments, mirroring the
`NameResolution`, `TypeSafety` and `ReferenceSafety` code enums. -/
inductive DiagCode where
  | TooManyTypeArguments
  | TooFewTypeArguments
  | InvalidLabel
  | UnboundLabel
  | UnboundVariable
  | InvalidPattern
  | PositionalCallMismatch
  | UnboundField
  | SubtypeError
  | JoinError
  | RecursiveTypeError
  | InvalidLoopControl
  | InvalidMoveOp
  | InvalidCopyOp
  | Visibility
  | ImplicitConstantCopy
  | InvalidNativeUsage
  | TooFewArguments
  | AbilityConstraint
  | FeatureGateError
  | InvalidImmVariableUsage
  | RefTrans
  deriving DecidableEq, Repr

/-- A structured diagnostic record: code, primary (loc, msg), secondary
labels. Rendering is out of scope; messages are kept verbatim where the
claims mention their content. -/
structure Diag where
  code : DiagCode
  loc : Loc
  msg : String
  secondary : List (Loc × String) := []
  notes : List String := []
  deriving DecidableEq, Repr

/-- The four abilities (`Ability_`). -/
inductive Ability where
  | Copy
  | Drop
  | Store
  | Key
  deriving DecidableEq, Repr

/-- Modelled from the spec: `Ability_::requires` is declared outside the
sources under `src/`. The spec's field-ability rule says every ability
declared on the owning datatype "is required as an `ability_constraint`
on the field's type", so the required ability is the declared ability
itself. -/
def Ability.requires (a : Ability) : Ability := a

/-- Ability sets (`AbilitySet`), as lists of abilities. -/
abbrev AbilitySet := List Ability

/-- Type parameter (`TParam`): unique id, user-facing name, constraints. -/
structure TParam where
  id : Nat
  userSpecifiedName : Symbol
  abilities : AbilitySet
  deriving DecidableEq, Repr

/-- Type names (`TypeName_`): expression-list (`Multiple`), builtin, or a
module-qualified datatype name. -/
inductive TypeName where
  | Multiple (n : Nat)
  | Builtin (b : Symbol)
  | ModuleType (m : Symbol) (n : Symbol)
  deriving DecidableEq, Repr

/-- The type representation (`N::Type_`, shared by naming and typing):
`Unit`, `Ref`, `Param`, `Apply`, `Fun`, `Var`, `Anything`,
`UnresolvedError`. The `Option AbilitySet` on `Apply` mirrors the source.
Locations inside types are dropped. -/
inductive Typ where
  | Unit
  | Ref (isMut : Bool) (inner : Typ)
  | Param (tp : TParam)
  | Apply (abilitiesOpt : Option AbilitySet) (tn : TypeName) (tyArgs : List Typ)
  | Fun (args : List Typ) (result : Typ)
  | Var (id : Nat)
  | Anything
  | UnresolvedError
  deriving Repr

/-! ## C1: `check_type_argument_arity` (naming/translate.rs) -/

/-- `check_type_argument_arity`: if the number of type arguments differs
from the declared arity, record one too-many/too-few diagnostic; then pop
arguments while there are too many and push `UnresolvedError` while there
are too few. The two `while` loops are rendered as `take` and
`++ replicate`. Returns the diagnostics emitted alongside the adjusted
argument list. -/
def checkTypeArgumentArity (loc : Loc) (name : String) (tyArgs : List Typ)
    (arity : Nat) : List Diag × List Typ :=
  let argsLen := tyArgs.length
  let diags :=
    if argsLen ≠ arity then
      let diagCode :=
        if argsLen > arity then DiagCode.TooManyTypeArguments
        else DiagCode.TooFewTypeArguments
      let msg := "Invalid instantiation of '" ++ name ++ "'. Expected " ++
        toString arity ++ " type argument(s) but got " ++ toString argsLen
      [{ code := diagCode, loc := loc, msg := msg }]
    else []
  -- while ty_args.len() > arity { ty_args.pop(); }
  let tyArgs := tyArgs.take arity
  -- while ty_args.len() < arity { ty_args.push(UnresolvedError) }
  let tyArgs := tyArgs ++ List.replicate (arity - tyArgs.length) Typ.UnresolvedError
  (diags, tyArgs)

/-! ## Naming pass: contexts, locals (C4), nominal blocks (C5) -/

/-- Numbered local variable (`N::Var_`): name, disambiguation id, color. -/
structure NVar where
  name : Symbol
  id : Nat
  color : Nat
  deriving DecidableEq, Repr

/-- `BTreeMap` modelled as an association list: insertion prepends, lookup
takes the first (most recent) entry, which agrees with overwrite
semantics. -/
abbrev AssocMap (α β : Type) := List (α × β)

/-- First-match lookup. -/
def AssocMap.find? [DecidableEq α] (m : AssocMap α β) (k : α) : Option β :=
  (List.find? (fun p => decide (p.1 = k)) m).map Prod.snd

/-- Overwriting insert (prepend). -/
def AssocMap.insert (m : AssocMap α β) (k : α) (v : β) : AssocMap α β :=
  (k, v) :: m

/-- `LoopType`. -/
inductive LoopType where
  | While
  | Loop
  deriving DecidableEq, Repr

/-- `NominalBlockType`: loops, named blocks, and the two frames a lambda
pushes (a loop-capture frame and a return frame). -/
inductive NominalBlockType where
  | Loop (lt : LoopType)
  | Block
  | LambdaReturn
  | LambdaLoopCapture
  deriving DecidableEq, Repr

/-- `NominalBlockUsage`: the three control-flow usages that resolve
against the nominal-block stack. -/
inductive NominalBlockUsage where
  | Return
  | Break
  | Continue
  deriving DecidableEq, Repr

/-- `BlockLabel`: the generated label for a nominal block. -/
structure BlockLabel where
  label : NVar
  isImplicit : Bool
  deriving DecidableEq, Repr

/-- The naming `Context` fields used by the embedded functions. The
nominal-block stack is stored most-recent-first, mirroring that the
source pushes at the end of a `Vec` and searches with `iter().rev()`. -/
structure NamingContext where
  localScopes : List (AssocMap Symbol Nat) := []
  localCount : AssocMap Symbol Nat := []
  usedLocals : List NVar := []
  nominalBlocks : List (Option Symbol × BlockLabel × NominalBlockType) := []
  nominalBlockId : Nat := 0
  diags : List Diag := []

/-- The id computation of `declare_local`
(`entry(name).and_modify(|c| *c += 1).or_insert(default)`), factored on
the current counter value: previous counter plus one, or the default
(`0` for a parameter, `1` otherwise) on the first declaration. -/
def nextIdStep (start : Option Nat) (isParameter : Bool) : Nat :=
  match start with
  | some c => c + 1
  | none => if isParameter then 0 else 1

def localIdFor (count : AssocMap Symbol Nat) (isParameter : Bool)
    (name : Symbol) : Nat :=
  nextIdStep (count.find? name) isParameter

/-- `declare_local`: the id is `0` for a parameter / `1` otherwise on the
first declaration of the name, and the previous count plus one afterwards;
the top local scope maps the name to the new id. Returns `none` when there
is no local scope (the source `unwrap`s). All locals start at color zero. -/
def declareLocal (ctx : NamingContext) (isParameter : Bool) (name : Symbol) :
    Option (NamingContext × NVar) :=
  match ctx.localScopes with
  | [] => none
  | top :: rest =>
    let id := localIdFor ctx.localCount isParameter name
    let nvar : NVar := { name := name, id := id, color := 0 }
    some ({ ctx with
              localCount := ctx.localCount.insert name id,
              localScopes := top.insert name id :: rest },
          nvar)

/-- `resolve_local`: look the name up in the innermost scope; on success
mark the variable used, otherwise record a diagnostic with the given code.
Returns `none` when there is no local scope (the source `unwrap`s). -/
def resolveLocal (ctx : NamingContext) (loc : Loc) (code : DiagCode)
    (msg : String) (name : Symbol) : Option (NamingContext × Option NVar) :=
  match ctx.localScopes with
  | [] => none
  | top :: _ =>
    match top.find? name with
    | none =>
      some ({ ctx with diags := ctx.diags ++ [{ code := code, loc := loc, msg := msg }] },
            none)
    | some id =>
      let nvar : NVar := { name := name, id := id, color := 0 }
      some ({ ctx with usedLocals := ctx.usedLocals ++ [nvar] }, some nvar)

/-- `new_local_scope`: clone the innermost scope and push the clone
(`none` models the source's `unwrap` panic on an empty scope stack). -/
def newLocalScope (ctx : NamingContext) : Option NamingContext :=
  match ctx.localScopes with
  | [] => none
  | top :: rest => some { ctx with localScopes := top :: top :: rest }

/-- `close_local_scope`: pop the innermost scope (`Vec::pop` is a no-op on
an empty stack). -/
def closeLocalScope (ctx : NamingContext) : NamingContext :=
  { ctx with localScopes := ctx.localScopes.tail }

/-- The context for one function body (`new_fun_scope` resets
`local_scopes` to one empty scope and empties `local_count`). -/
def initialNamingContext : NamingContext :=
  { localScopes := [[]], localCount := [], usedLocals := [],
    nominalBlocks := [], nominalBlockId := 0, diags := [] }

/-- The scope-manipulation events a function body performs, abstracting a
traversal of its bindings and blocks. -/
inductive LocalOp where
  | declare (isParameter : Bool) (name : Symbol)
  | push
  | pop
  deriving DecidableEq, Repr

/-- Run a sequence of scope events, collecting the declared variables in
order. `none` models a panic of an `unwrap` in the source. -/
def runLocalOps (ctx : NamingContext) : List LocalOp → Option (NamingContext × List NVar)
  | [] => some (ctx, [])
  | .declare p n :: ops =>
    match declareLocal ctx p n with
    | none => none
    | some (ctx', v) =>
      match runLocalOps ctx' ops with
      | none => none
      | some (ctxF, vs) => some (ctxF, v :: vs)
  | .push :: ops =>
    match newLocalScope ctx with
    | none => none
    | some ctx' => runLocalOps ctx' ops
  | .pop :: ops => runLocalOps (closeLocalScope ctx) ops

/-! Reference semantics of scoping for the resolution half of the claim:
a stack of frames of declaration events (innermost first, newest first
inside each frame). `push` opens an empty frame, `pop` discards the
innermost frame together with its declarations, and a use resolves to the
first declaration found scanning innermost-to-outermost, newest-to-oldest
— i.e. the most recent declaration still in scope. -/

/-- Reference scoping state: declaration-event frames plus the same
per-name counter the code keeps (ids are shared so that only the
*resolution discipline* is being compared). -/
structure SpecScopes where
  frames : List (List (Symbol × Nat))
  count : AssocMap Symbol Nat

/-- Reference run of the scope events. -/
def specRun (s : SpecScopes) : List LocalOp → Option SpecScopes
  | [] => some s
  | .declare p n :: ops =>
    match s.frames with
    | [] => none
    | f :: fs =>
      let id := nextIdStep (s.count.find? n) p
      specRun { frames := ((n, id) :: f) :: fs, count := s.count.insert n id } ops
  | .push :: ops =>
    match s.frames with
    | [] => none
    | fs => specRun { s with frames := [] :: fs } ops
  | .pop :: ops => specRun { s with frames := s.frames.tail } ops

/-- The most recent declaration of `name` still in scope. -/
def specResolve (s : SpecScopes) (name : Symbol) : Option Nat :=
  AssocMap.find? s.frames.flatten name

/-- Reference state for a fresh function body. -/
def initialSpecScopes : SpecScopes := { frames := [[]], count := [] }

/-- The parameter flags of the declarations of `name`, in order. -/
def paramsOf (ops : List LocalOp) (name : Symbol) : List Bool :=
  ops.filterMap fun op => match op with
    | .declare p n => if n = name then some p else none
    | _ => none

/-- The ids assigned to the declarations of `name`, in order. -/
def idsOf (vs : List NVar) (name : Symbol) : List Nat :=
  (vs.filter fun v => decide (v.name = name)).map NVar.id

/-- The id sequence produced by iterating `nextIdStep` from a starting
counter value. -/
def nextIds (start : Option Nat) : List Bool → List Nat
  | [] => []
  | p :: rest => nextIdStep start p :: nextIds (some (nextIdStep start p)) rest

/-- The per-declaration id C4 claims: `(0 if the binding is a parameter
else 1)` plus the count of prior declarations of the same name. Stated
from the claim's words, for comparison with `declareLocal`. -/
def claimedLocalId (isParameter : Bool) (priorDeclarations : Nat) : Nat :=
  (if isParameter then 0 else 1) + priorDeclarations

/-- The scope stack an execution of the reference semantics corresponds
to: each scope holds the declarations of its frame and of all enclosing
frames (the clone-on-push discipline). -/
def scopesOfFrames : List (List (Symbol × Nat)) → List (AssocMap Symbol Nat)
  | [] => []
  | f :: fs => (f ++ (scopesOfFrames fs).headD []) :: scopesOfFrames fs

/-- The code state and the reference state describe the same scopes. -/
def scopesMatch (ctx : NamingContext) (s : SpecScopes) : Prop :=
  ctx.localScopes = scopesOfFrames s.frames ∧ ctx.localCount = s.count

/-! ## C5: nominal-block label resolution -/

/-- The `Display` rendering of a usage. -/
def NominalBlockUsage.toStr : NominalBlockUsage → String
  | .Return => "return"
  | .Break => "break"
  | .Continue => "continue"

/-- The `Display` rendering of a block type. -/
def NominalBlockType.toStr : NominalBlockType → String
  | .Loop _ => "loop"
  | .Block => "named"
  | .LambdaReturn | .LambdaLoopCapture => "lambda"

/-- `NominalBlockType::is_acceptable_usage`, arm for arm: loops accept
break and continue; blocks accept return; lambda-return frames accept
return; lambda-loop-capture frames accept break and continue. -/
def NominalBlockType.isAcceptableUsage :
    NominalBlockType → NominalBlockUsage → Bool
  | .Loop _, .Break
  | .Loop _, .Continue
  | .Block, .Return
  | .LambdaReturn, .Return
  | .LambdaLoopCapture, .Break
  | .LambdaLoopCapture, .Continue => true
  | .Loop _, .Return
  | .Block, .Break
  | .Block, .Continue
  | .LambdaReturn, .Break
  | .LambdaReturn, .Continue
  | .LambdaLoopCapture, .Return => false

/-- The stack walk of `resolve_nominal_label`: the most recent frame whose
(optional) name matches the label
(`iter().rev().find(|(block_name, _, _)| block_name == Some(name))`). -/
def findNominalLabel (ctx : NamingContext) (name : Symbol) :
    Option (BlockLabel × NominalBlockType) :=
  (ctx.nominalBlocks.find? fun e => decide (e.1 = some name)).map
    fun e => (e.2.1, e.2.2)

/-- The note attached to an invalid-label diagnostic, per block type. -/
def invalidLabelNote : NominalBlockType → String
  | .Loop _ =>
    "Loop labels may only be used with 'break' and 'continue', not 'return'"
  | .Block =>
    "Named block labels may only be used with 'return', not 'break' or 'continue'."
  | .LambdaReturn | .LambdaLoopCapture =>
    "Lambda block labels may only be used with 'return' or 'break', not 'continue'."

/-- `resolve_nominal_label`: walk the whole nominal-block stack by label
name; if the found frame's type accepts the usage return its label,
otherwise record one invalid-label diagnostic (with a per-type note) and
return no label; if no frame matches record an unbound-label
diagnostic. -/
def resolveNominalLabel (ctx : NamingContext) (usage : NominalBlockUsage)
    (loc : Loc) (name : Symbol) : NamingContext × Option BlockLabel :=
  match findNominalLabel ctx name with
  | some (label, blockType) =>
    if blockType.isAcceptableUsage usage then
      (ctx, some label)
    else
      let msg := "Invalid usage of '" ++ usage.toStr ++ "' with a " ++
        blockType.toStr ++ " block label"
      ({ ctx with diags := ctx.diags ++
          [{ code := DiagCode.InvalidLabel, loc := loc, msg := msg,
             notes := [invalidLabelNote blockType] }] },
       none)
  | none =>
    let msg := "Invalid " ++ usage.toStr ++ ". Unbound label '" ++ name
    ({ ctx with diags := ctx.diags ++
        [{ code := DiagCode.UnboundLabel, loc := loc, msg := msg }] },
     none)

/-- `block_label`: an unnamed block gets the implicit label symbol. -/
def blockLabel (name : Option Symbol) (id : Nat) : BlockLabel :=
  { label := { name := name.getD "%implicit", id := id, color := 0 },
    isImplicit := name.isNone }

/-- `enter_nominal_block`: push `(name, generated label, type)` with a
fresh block id (stored most-recent-first). -/
def enterNominalBlock (ctx : NamingContext) (loc : Loc)
    (name : Option Symbol) (nameType : NominalBlockType) : NamingContext :=
  let _ := loc
  { ctx with
      nominalBlocks := (name, blockLabel name ctx.nominalBlockId, nameType)
        :: ctx.nominalBlocks,
      nominalBlockId := ctx.nominalBlockId + 1 }

/-- `exit_nominal_block`: pop the most recent frame. -/
def exitNominalBlock (ctx : NamingContext) :
    NamingContext × Option (BlockLabel × NominalBlockType) :=
  match ctx.nominalBlocks with
  | [] => (ctx, none)
  | (_, label, nameType) :: rest =>
    ({ ctx with nominalBlocks := rest }, some (label, nameType))

/-! ## Typing pass: substitution, unification (core is spec-modelled) -/

/-- The type-variable substitution map (`Subst`). -/
abbrev Subst := AssocMap Nat Typ

/-- Modelled from the spec: `core::ready_tvars` / `core::unfold_type` are
in `typing/core.rs`, not under `src/`. The spec describes "a substitution
map resolving variables to concrete types"; a top-level variable is
resolved through the map (chains followed with fuel bounded by the map
size). -/
def unfoldTypeGo (subst : Subst) : Nat → Typ → Typ
  | 0, t => t
  | fuel + 1, t =>
    match t with
    | .Var i =>
      match subst.find? i with
      | some t' => unfoldTypeGo subst fuel t'
      | none => .Var i
    | t => t

def unfoldType (subst : Subst) (t : Typ) : Typ :=
  unfoldTypeGo subst (subst.length + 1) t

/-- Modelled from the spec: `core::ready_tvars` resolves the outermost
variables of a type before unification. -/
def readyTvars (subst : Subst) (t : Typ) : Typ :=
  unfoldType subst t

/-- The deferred constraints (`Constraint_`): ability, numeric, bits,
ordered, base-type and single-type obligations, collected during
traversal and solved at statement boundaries. -/
inductive Constraint where
  | AbilityConstraint (loc : Loc) (msg : Option String) (ty : Typ) (ability : Ability)
  | NumericConstraint (loc : Loc) (op : String) (ty : Typ)
  | BitsConstraint (loc : Loc) (op : String) (ty : Typ)
  | OrderedConstraint (loc : Loc) (op : String) (ty : Typ)
  | BaseTypeConstraint (loc : Loc) (msg : String) (ty : Typ)
  | SingleTypeConstraint (loc : Loc) (msg : String) (ty : Typ)
  deriving Repr

/-- `core::TypingError`, with the payloads consumed by `typing_error`. -/
inductive TypingError where
  | SubtypeError (t1 t2 : Typ)
  | ArityMismatch (n1 : Nat) (t1 : Typ) (n2 : Nat) (t2 : Typ)
  | FunArityMismatch (a1 : Nat) (t1 : Typ) (a2 : Nat) (t2 : Typ)
  | Incompatible (t1 t2 : Typ)
  | RecursiveType (loc : Loc)
  deriving Repr

/-- The two offending types carried by a unification error (none for the
occurs-check error, which carries only a location). -/
def TypingError.sides : TypingError → Option (Typ × Typ)
  | .SubtypeError t1 t2 => some (t1, t2)
  | .ArityMismatch _ t1 _ t2 => some (t1, t2)
  | .FunArityMismatch _ t1 _ t2 => some (t1, t2)
  | .Incompatible t1 t2 => some (t1, t2)
  | .RecursiveType _ => none

/-!
Modelled from the spec: the unification underlying `core::subtype` — it
"attempts to unify lhs into rhs, with `Ref(mut=true, T) <: Ref(mut=false,
T)` allowed but not the reverse"; type variables are bound in the
substitution, `Anything` accepts any type, and the `UnresolvedError`
sentinel unifies silently. Returns the updated substitution and the
computed type, or `none` on failure.
-/

mutual

def coreSubtypeOpt (subst : Subst) : Typ → Typ → Option (Subst × Typ)
  | .UnresolvedError, _ => some (subst, .UnresolvedError)
  | _, .UnresolvedError => some (subst, .UnresolvedError)
  | .Anything, rhs => some (subst, rhs)
  | lhs, .Anything => some (subst, lhs)
  | .Unit, .Unit => some (subst, .Unit)
  | .Var i, .Var j =>
    if i = j then some (subst, .Var i)
    else some (AssocMap.insert subst i (.Var j), .Var j)
  | .Var i, rhs => some (AssocMap.insert subst i rhs, rhs)
  | lhs, .Var j => some (AssocMap.insert subst j lhs, lhs)
  | .Ref m1 t1, .Ref m2 t2 =>
    if m1 = m2 || (m1 && !m2) then
      match coreSubtypeOpt subst t1 t2 with
      | some (s', t') => some (s', .Ref m2 t')
      | none => none
    else none
  | .Param p1, .Param p2 =>
    if p1 = p2 then some (subst, .Param p1) else none
  | .Apply abs1 tn1 args1, .Apply abs2 tn2 args2 =>
    let _ := abs1
    if tn1 = tn2 then
      match coreSubtypeListOpt subst args1 args2 with
      | some (s', args') => some (s', .Apply abs2 tn2 args')
      | none => none
    else none
  | .Fun args1 r1, .Fun args2 r2 =>
    match coreSubtypeListOpt subst args2 args1 with
    | some (s', args') =>
      match coreSubtypeOpt s' r1 r2 with
      | some (s'', r') => some (s'', .Fun args' r')
      | none => none
    | none => none
  | _, _ => none
termination_by t1 t2 => sizeOf t1 + sizeOf t2
decreasing_by all_goals (simp_wf; omega)

def coreSubtypeListOpt (subst : Subst) :
    List Typ → List Typ → Option (Subst × List Typ)
  | [], [] => some (subst, [])
  | l :: ls, r :: rs =>
    match coreSubtypeOpt subst l r with
    | some (s', t') =>
      match coreSubtypeListOpt s' ls rs with
      | some (s'', ts) => some (s'', t' :: ts)
      | none => none
    | none => none
  | _, _ => none
termination_by l1 l2 => sizeOf l1 + sizeOf l2
decreasing_by all_goals (simp_wf; omega)

end

/-- Modelled from the spec: `core::subtype` classifies a failed
unification into the error taxonomy consumed by `typing_error`, quoting
the two sides being unified. -/
def coreSubtype (subst : Subst) (lhs rhs : Typ) :
    Except TypingError (Subst × Typ) :=
  match coreSubtypeOpt subst lhs rhs with
  | some r => .ok r
  | none =>
    match lhs, rhs with
    | .Apply _ (.Multiple n1) a1, .Apply _ (.Multiple n2) a2 =>
      if n1 ≠ n2 then .error (.ArityMismatch a1.length lhs a2.length rhs)
      else .error (.Incompatible lhs rhs)
    | .Fun a1 _, .Fun a2 _ =>
      if a1.length ≠ a2.length then
        .error (.FunArityMismatch a1.length lhs a2.length rhs)
      else .error (.Incompatible lhs rhs)
    | .Ref _ _, .Ref _ _ => .error (.SubtypeError lhs rhs)
    | _, _ => .error (.Incompatible lhs rhs)

/-!
Modelled from the spec: the unification underlying `core::join` — the
least upper bound of two types; references join to a mutable reference
only when both sides are mutable.
-/

mutual

def coreJoinOpt (subst : Subst) : Typ → Typ → Option (Subst × Typ)
  | .UnresolvedError, _ => some (subst, .UnresolvedError)
  | _, .UnresolvedError => some (subst, .UnresolvedError)
  | .Anything, rhs => some (subst, rhs)
  | lhs, .Anything => some (subst, lhs)
  | .Unit, .Unit => some (subst, .Unit)
  | .Var i, .Var j =>
    if i = j then some (subst, .Var i)
    else some (AssocMap.insert subst i (.Var j), .Var j)
  | .Var i, rhs => some (AssocMap.insert subst i rhs, rhs)
  | lhs, .Var j => some (AssocMap.insert subst j lhs, lhs)
  | .Ref m1 t1, .Ref m2 t2 =>
    match coreJoinOpt subst t1 t2 with
    | some (s', t') => some (s', .Ref (m1 && m2) t')
    | none => none
  | .Param p1, .Param p2 =>
    if p1 = p2 then some (subst, .Param p1) else none
  | .Apply abs1 tn1 args1, .Apply abs2 tn2 args2 =>
    let _ := abs1
    if tn1 = tn2 then
      match coreJoinListOpt subst args1 args2 with
      | some (s', args') => some (s', .Apply abs2 tn2 args')
      | none => none
    else none
  | .Fun args1 r1, .Fun args2 r2 =>
    match coreJoinListOpt subst args1 args2 with
    | some (s', args') =>
      match coreJoinOpt s' r1 r2 with
      | some (s'', r') => some (s'', .Fun args' r')
      | none => none
    | none => none
  | _, _ => none
termination_by t1 t2 => sizeOf t1 + sizeOf t2
decreasing_by all_goals (simp_wf; omega)

def coreJoinListOpt (subst : Subst) :
    List Typ → List Typ → Option (Subst × List Typ)
  | [], [] => some (subst, [])
  | l :: ls, r :: rs =>
    match coreJoinOpt subst l r with
    | some (s', t') =>
      match coreJoinListOpt s' ls rs with
      | some (s'', ts) => some (s'', t' :: ts)
      | none => none
    | none => none
  | _, _ => none
termination_by l1 l2 => sizeOf l1 + sizeOf l2
decreasing_by all_goals (simp_wf; omega)

end

/-- Modelled from the spec: `core::join`, with the same error
classification as `core::subtype`. -/
def coreJoin (subst : Subst) (t1 t2 : Typ) :
    Except TypingError (Subst × Typ) :=
  match coreJoinOpt subst t1 t2 with
  | some r => .ok r
  | none =>
    match t1, t2 with
    | .Apply _ (.Multiple n1) a1, .Apply _ (.Multiple n2) a2 =>
      if n1 ≠ n2 then .error (.ArityMismatch a1.length t1 a2.length t2)
      else .error (.Incompatible t1 t2)
    | .Fun a1 _, .Fun a2 _ =>
      if a1.length ≠ a2.length then
        .error (.FunArityMismatch a1.length t1 a2.length t2)
      else .error (.Incompatible t1 t2)
    | _, _ => .error (.Incompatible t1 t2)

/-!
Modelled from the spec: `core::error_format` renders a type in its
best-known (partially substituted) form. Only the fact that both sides'
renderings appear in the diagnostic matters to the claims.
-/

mutual

def errorFormatGo (subst : Subst) : Typ → String
  | .Unit => "()"
  | .Ref true t => "&mut " ++ errorFormatGo subst t
  | .Ref false t => "&" ++ errorFormatGo subst t
  | .Param p => p.userSpecifiedName
  | .Apply _ (.Multiple _) args =>
    "(" ++ errorFormatList subst args ++ ")"
  | .Apply _ (.Builtin b) args =>
    if args.isEmpty then b else b ++ "<" ++ errorFormatList subst args ++ ">"
  | .Apply _ (.ModuleType m n) args =>
    if args.isEmpty then m ++ "::" ++ n
    else m ++ "::" ++ n ++ "<" ++ errorFormatList subst args ++ ">"
  | .Fun args r =>
    "|" ++ errorFormatList subst args ++ "| -> " ++ errorFormatGo subst r
  | .Var i => "_#" ++ toString i
  | .Anything => "_"
  | .UnresolvedError => "_"

def errorFormatList (subst : Subst) : List Typ → String
  | [] => ""
  | [t] => errorFormatGo subst t
  | t :: ts => errorFormatGo subst t ++ ", " ++ errorFormatList subst ts

end

def errorFormat (t : Typ) (subst : Subst) : String :=
  errorFormatGo subst (unfoldType subst t)

/-- Modelled from the spec: `core::best_loc`; locations inside types are
abstracted away, so the best location is the constant `0`. -/
def bestLoc (subst : Subst) (t : Typ) : Loc :=
  let _ := subst
  let _ := t
  0

/-- The typing `Context` fields used by the embedded functions. -/
structure TCContext where
  subst : Subst := []
  constraints : List Constraint := []
  diags : List Diag := []
  tvarCounter : Nat := 0
  locals : AssocMap NVar Typ := []
  mutability : AssocMap NVar Bool := []
  currentModule : Symbol := ""
  featureMove2024Paths : Bool := true
  currentCallColor : Nat := 0
  ice : Bool := false

/-- `typing_error`: build the diagnostic for a failed subtype/join, arm
for arm, quoting both sides in their best-known substituted form (the
occurs-check arm quotes only the recursive location). -/
def typingError (ctx : TCContext) (fromSubtype : Bool) (loc : Loc)
    (msg : String) (e : TypingError) : Diag :=
  let subst := ctx.subst
  match e with
  | .SubtypeError t1 t2 =>
    { code := DiagCode.SubtypeError, loc := loc, msg := msg,
      secondary :=
        [(bestLoc subst t1, "Given: " ++ errorFormat t1 subst),
         (bestLoc subst t2, "Expected: " ++ errorFormat t2 subst)] }
  | .ArityMismatch n1 t1 n2 t2 =>
    let msg1 :=
      if fromSubtype then
        "Given expression list of length " ++ toString n1 ++ ": " ++
          errorFormat t1 subst
      else
        "Found expression list of length " ++ toString n1 ++ ": " ++
          errorFormat t1 subst ++
          ". It is not compatible with the other type of length " ++
          toString n2 ++ "."
    let msg2 :=
      if fromSubtype then
        "Expected expression list of length " ++ toString n2 ++ ": " ++
          errorFormat t2 subst
      else
        "Found expression list of length " ++ toString n2 ++ ": " ++
          errorFormat t2 subst ++
          ". It is not compatible with the other type of length " ++
          toString n1 ++ "."
    { code := DiagCode.JoinError, loc := loc, msg := msg,
      secondary := [(bestLoc subst t1, msg1), (bestLoc subst t2, msg2)] }
  | .FunArityMismatch a1 t1 a2 t2 =>
    let msg1 :=
      if fromSubtype then
        "Given lambda with " ++ toString a1 ++ " arguments: " ++
          errorFormat t1 subst
      else
        "Found a lambda type with " ++ toString a1 ++ " arguments: " ++
          errorFormat t1 subst ++
          ". It is not compatible with the other type with " ++
          toString a2 ++ " arguments."
    let msg2 :=
      if fromSubtype then
        "Expected a lambda with " ++ toString a2 ++ " arguments: " ++
          errorFormat t2 subst
      else
        "Found a lambda type with " ++ toString a2 ++ " arguments: " ++
          errorFormat t2 subst ++
          ". It is not compatible with the other type with " ++
          toString a1 ++ " arguments."
    { code := DiagCode.JoinError, loc := loc, msg := msg,
      secondary := [(bestLoc subst t1, msg1), (bestLoc subst t2, msg2)] }
  | .Incompatible t1 t2 =>
    let m1 :=
      if fromSubtype then "Given: " ++ errorFormat t1 subst
      else
        "Found: " ++ errorFormat t1 subst ++
          ". It is not compatible with the other type."
    let m2 :=
      if fromSubtype then "Expected: " ++ errorFormat t2 subst
      else
        "Found: " ++ errorFormat t2 subst ++
          ". It is not compatible with the other type."
    { code := DiagCode.JoinError, loc := loc, msg := msg,
      secondary := [(bestLoc subst t1, m1), (bestLoc subst t2, m2)] }
  | .RecursiveType rloc =>
    { code := DiagCode.RecursiveTypeError, loc := loc, msg := msg,
      secondary :=
        [(rloc, "Unable to infer the type. Recursive type found.")] }

/-- `subtype_impl`: take the substitution out of the context
(`mem::replace`), ready the variables of both sides, and run the core
unification on a clone; on failure restore the original substitution,
record the error diagnostic, and give back the expected side; on success
install the updated substitution. -/
def subtypeImpl (ctx : TCContext) (loc : Loc) (msg : String)
    (preLhs preRhs : Typ) : TCContext × Except Typ Typ :=
  let subst := ctx.subst
  let ctx := { ctx with subst := [] }
  let lhs := readyTvars subst preLhs
  let rhs := readyTvars subst preRhs
  match coreSubtype subst lhs rhs with
  | .error e =>
    let ctx := { ctx with subst := subst }
    let diag := typingError ctx true loc msg e
    ({ ctx with diags := ctx.diags ++ [diag] }, .error rhs)
  | .ok (nextSubst, ty) =>
    ({ ctx with subst := nextSubst }, .ok ty)

/-- `subtype`: like `subtype_impl` but degrading a failure to the
expected (right-hand) type so checking can continue. -/
def subtype (ctx : TCContext) (loc : Loc) (msg : String)
    (preLhs preRhs : Typ) : TCContext × Typ :=
  match subtypeImpl ctx loc msg preLhs preRhs with
  | (ctx, .error rhs) => (ctx, rhs)
  | (ctx, .ok t) => (ctx, t)

/-- `join_opt`: the same discipline for joins; `none` on failure. -/
def joinOpt (ctx : TCContext) (loc : Loc) (msg : String)
    (preT1 preT2 : Typ) : TCContext × Option Typ :=
  let subst := ctx.subst
  let ctx := { ctx with subst := [] }
  let t1 := readyTvars subst preT1
  let t2 := readyTvars subst preT2
  match coreJoin subst t1 t2 with
  | .error e =>
    let ctx := { ctx with subst := subst }
    let diag := typingError ctx false loc msg e
    ({ ctx with diags := ctx.diags ++ [diag] }, none)
  | .ok (nextSubst, ty) =>
    ({ ctx with subst := nextSubst }, some ty)

/-- `context.error_type(loc)`: the error sentinel type. -/
def errorType (loc : Loc) : Typ :=
  let _ := loc
  Typ.UnresolvedError

/-- `join`: degrade a failed join to the error-type sentinel. -/
def join (ctx : TCContext) (loc : Loc) (msg : String)
    (preT1 preT2 : Typ) : TCContext × Typ :=
  match joinOpt ctx loc msg preT1 preT2 with
  | (ctx, none) => (ctx, errorType loc)
  | (ctx, some ty) => (ctx, ty)

/-! ## C2: datatype field-ability checking -/

/-- The `Display` rendering of an ability. -/
def Ability.toStr : Ability → String
  | .Copy => "copy"
  | .Drop => "drop"
  | .Store => "store"
  | .Key => "key"

/-!
Modelled from the spec: `core::subst_tparams` substitutes type parameters
by the types a parameter-to-type map assigns them.
-/

mutual

def substTparams (m : AssocMap Nat Typ) : Typ → Typ
  | .Unit => .Unit
  | .Ref mu t => .Ref mu (substTparams m t)
  | .Param p =>
    match m.find? p.id with
    | some t => t
    | none => .Param p
  | .Apply abs tn args => .Apply abs tn (substTparamsList m args)
  | .Fun args r => .Fun (substTparamsList m args) (substTparams m r)
  | .Var i => .Var i
  | .Anything => .Anything
  | .UnresolvedError => .UnresolvedError

def substTparamsList (m : AssocMap Nat Typ) : List Typ → List Typ
  | [] => []
  | t :: ts => substTparams m t :: substTparamsList m ts

end

/-- Modelled from the spec: `core::make_tparam_subst` pairs the declared
type parameters with the given replacement types. -/
def makeTparamSubst (tps : List TParam) (args : List Typ) : AssocMap Nat Typ :=
  (tps.zip args).map fun pa => (pa.1.id, pa.2)

/-!
Modelled from the spec: `core::instantiate` "replaces every `Param` with
a fresh type variable per call site".
-/

mutual

def tparamIds : Typ → List Nat
  | .Param p => [p.id]
  | .Ref _ t => tparamIds t
  | .Apply _ _ args => tparamIdsList args
  | .Fun args r => tparamIdsList args ++ tparamIds r
  | .Unit => []
  | .Var _ => []
  | .Anything => []
  | .UnresolvedError => []

def tparamIdsList : List Typ → List Nat
  | [] => []
  | t :: ts => tparamIds t ++ tparamIdsList ts

end

def instantiate (ctx : TCContext) (t : Typ) : TCContext × Typ :=
  let pids := (tparamIds t).dedup
  let fresh := pids.enum.map fun ip => (ip.2, Typ.Var (ctx.tvarCounter + ip.1))
  ({ ctx with tvarCounter := ctx.tvarCounter + pids.length },
   substTparams fresh t)

/-- Modelled from the spec: whether a type has an ability, "checked
structurally": `Anything` "accepts any ability", the `UnresolvedError`
sentinel poisons silently (so it never produces follow-on ability
errors), datatypes carry their declared ability set, primitives have
copy/drop/store, references copy/drop, and function (lambda) types have
no abilities. -/
def hasAbility : Typ → Ability → Bool
  | .Anything, _ => true
  | .UnresolvedError, _ => true
  | .Unit, a => match a with | .Key => false | _ => true
  | .Ref _ _, a => match a with | .Copy => true | .Drop => true | _ => false
  | .Param p, a => decide (a ∈ p.abilities)
  | .Var _, _ => false
  | .Apply (some declared) _ _, a => decide (a ∈ declared)
  | .Apply none tn _, a =>
    match tn with
    | .Builtin _ => match a with | .Key => false | _ => true
    | .Multiple _ => match a with | .Key => false | _ => true
    | .ModuleType _ _ => false
  | .Fun _ _, _ => false

/-- `context.add_ability_constraint`: collect a deferred ability
obligation. -/
def addAbilityConstraint (ctx : TCContext) (loc : Loc) (msg : Option String)
    (ty : Typ) (a : Ability) : TCContext :=
  { ctx with constraints :=
      ctx.constraints ++ [.AbilityConstraint loc msg ty a] }

/-- `context.add_base_type_constraint`. -/
def addBaseTypeConstraint (ctx : TCContext) (loc : Loc) (msg : String)
    (ty : Typ) : TCContext :=
  { ctx with constraints :=
      ctx.constraints ++ [.BaseTypeConstraint loc msg ty] }

/-- `context.add_single_type_constraint`. -/
def addSingleTypeConstraint (ctx : TCContext) (loc : Loc) (msg : String)
    (ty : Typ) : TCContext :=
  { ctx with constraints :=
      ctx.constraints ++ [.SingleTypeConstraint loc msg ty] }

/-- `context.add_numeric_constraint`. -/
def addNumericConstraint (ctx : TCContext) (loc : Loc) (op : String)
    (ty : Typ) : TCContext :=
  { ctx with constraints :=
      ctx.constraints ++ [.NumericConstraint loc op ty] }

/-- Modelled from the spec: discharging one deferred constraint —
"substitution is applied to each pending constraint's type; unsatisfied
constraints produce one diagnostic each, referencing the original 'why'
message captured at collection time". Only ability constraints can fail
in this model; the remaining kinds are outside the claims under
verification and are treated as satisfied. -/
def checkConstraint (subst : Subst) (c : Constraint) : Option Diag :=
  match c with
  | .AbilityConstraint loc msg ty a =>
    if hasAbility (unfoldType subst ty) a then none
    else
      some { code := DiagCode.AbilityConstraint, loc := loc,
             msg := msg.getD ("Missing ability '" ++ a.toStr ++ "'") }
  | _ => none

/-- Modelled from the spec: `core::solve_constraints` drains the pending
constraints at a discharge point, reporting one diagnostic per
violation. -/
def solveConstraints (ctx : TCContext) : TCContext :=
  { ctx with
      constraints := [],
      diags := ctx.diags ++
        ctx.constraints.filterMap (checkConstraint ctx.subst) }

/-- The message of a field-ability constraint (the `struct` wording is
used verbatim for enum variants too, as in the source). -/
def fieldAbilityMsg (declaredAbility : Ability) : String :=
  "Invalid field type. The struct was declared with the ability '" ++
    declaredAbility.toStr ++ "' so all fields require the ability '" ++
    declaredAbility.requires.toStr ++ "'"

/-- `N::StructFields`: native or defined fields. -/
inductive StructFields where
  | Native
  | Defined (fields : List (Field × Nat × Typ))

/-- `N::VariantFields`: empty or defined fields. -/
inductive VariantFields where
  | Empty
  | Defined (fields : List (Field × Nat × Typ))

/-- The ability constraints `struct_def`/`variant_def` collect: one per
field and declared ability, on the field type with the datatype's own
type parameters substituted by `Anything`. -/
def datatypeFieldAbilityConstraints (abilities : AbilitySet)
    (tps : List TParam) (fieldMap : List (Field × Nat × Typ)) :
    List Constraint :=
  let tparamSubst := makeTparamSubst tps (tps.map fun _ => Typ.Anything)
  fieldMap.flatMap fun fld =>
    abilities.map fun declaredAbility =>
      .AbilityConstraint 0 (some (fieldAbilityMsg declaredAbility))
        (substTparams tparamSubst fld.2.2) declaredAbility.requires

/-- `struct_def` (up to the second `solve_constraints`; the subsequent
in-place type expansion and the type-parameter-usage analysis concern
phantom checking, not field abilities): instantiate each field type and
add a base-type constraint, solve; then, with the declared type
parameters substituted by `Anything`, require `ability.requires()` of
each declared ability on each field type, and solve. Field-type source
locations are abstracted to `0`. -/
def structDef (ctx : TCContext) (abilities : AbilitySet)
    (typeParameters : List TParam) (fields : StructFields) : TCContext :=
  match fields with
  | .Native => ctx
  | .Defined fieldMap =>
    let ctx := fieldMap.foldl (fun c fld =>
      let ct := instantiate c fld.2.2
      addBaseTypeConstraint ct.1 0 "Invalid field type" ct.2) ctx
    let ctx := solveConstraints ctx
    let tparamSubst :=
      makeTparamSubst typeParameters (typeParameters.map fun _ => Typ.Anything)
    let ctx := fieldMap.foldl (fun c fld =>
      let substTy := substTparams tparamSubst fld.2.2
      abilities.foldl (fun c2 declaredAbility =>
        addAbilityConstraint c2 0 (some (fieldAbilityMsg declaredAbility))
          substTy declaredAbility.requires) c) ctx
    solveConstraints ctx

/-- `variant_def` (same fragment as `structDef`, for one enum variant
with the enum's abilities and type parameters). -/
def variantDef (ctx : TCContext) (enumAbilities : AbilitySet)
    (enumTparams : List TParam) (fields : VariantFields) : TCContext :=
  match fields with
  | .Empty => ctx
  | .Defined fieldMap =>
    let ctx := fieldMap.foldl (fun c fld =>
      let ct := instantiate c fld.2.2
      addBaseTypeConstraint ct.1 0 "Invalid field type" ct.2) ctx
    let ctx := solveConstraints ctx
    let tparamSubst :=
      makeTparamSubst enumTparams (enumTparams.map fun _ => Typ.Anything)
    let ctx := fieldMap.foldl (fun c fld =>
      let substTy := substTparams tparamSubst fld.2.2
      enumAbilities.foldl (fun c2 declaredAbility =>
        addAbilityConstraint c2 0 (some (fieldAbilityMsg declaredAbility))
          substTy declaredAbility.requires) c) ctx
    solveConstraints ctx

/-- `enum_def`: check every variant against the enum's ability set and
type parameters. -/
def enumDef (ctx : TCContext) (enumAbilities : AbilitySet)
    (enumTparams : List TParam) (variants : List VariantFields) : TCContext :=
  variants.foldl (fun c v => variantDef c enumAbilities enumTparams v) ctx

/-! ## C7: pattern ellipsis expansion (naming pass) -/

/-- `E::Ellipsis<T>`: either an explicit sub-pattern or a `..`. -/
inductive Ellipsis (α : Type) where
  | Binder (pat : α)
  | Ellipsis (loc : Loc)
  deriving Repr

/-- The fragment of the expansion-AST match pattern (`E::MatchPattern`)
the ellipsis-expansion functions need: explicit sub-patterns are opaque
here, and `..` expands to `Wildcard`s. -/
inductive EPat where
  | Wildcard
  | Binder (v : Symbol)
  | Literal (n : Nat)
  deriving DecidableEq, Repr

/-- `expand_positional_ellipsis`: each explicit argument stays, an
ellipsis becomes `0..=missing` wildcards (none when `missing` is
negative), and the result is enumerated into positional fields named by
their index. -/
def expandPositionalEllipsis (missing : Int) (args : List (Ellipsis α))
    (replacement : Loc → α) : List (Field × Nat × α) :=
  (((args.map fun p =>
      match p with
      | Ellipsis.Binder p => [p]
      | Ellipsis.Ellipsis eloc =>
        List.replicate (missing + 1).toNat (replacement eloc)).flatten).enum).map
    fun ip => (toString ip.1, ip.1, ip.2)

/-- `FieldInfo` (naming/translate.rs): positional fields with their
count, named fields as a set (here an ordered list of distinct names),
or no fields. -/
inductive FieldInfo where
  | Positional (numFields : Nat)
  | Named (fields : List Field)
  | Empty
  deriving DecidableEq, Repr

/-- `FieldInfo::field_count` (naming/translate.rs): the declared number
of fields — the positional count, the number of named fields, or `0`
when empty. -/
def FieldInfo.fieldCount : FieldInfo → Nat
  | .Positional numFields => numFields
  | .Named fields => fields.length
  | .Empty => 0

/-- `expand_named_ellipsis`: add one replacement pattern for each
declared field not already bound by the pattern, indexed after the
explicit arguments. -/
def expandNamedEllipsis (fieldInfo : FieldInfo) (headLoc eloc : Loc)
    (args : List (Field × Nat × α)) (replacement : Loc → α) :
    List (Field × Nat × α) :=
  let _ := headLoc
  let fields : List Field :=
    match fieldInfo with
    | .Empty => []
    | .Named fields => fields
    | .Positional numFields => (List.range numFields).map toString
  let fields := fields.filter fun f => decide (f ∉ args.map Prod.fst)
  let startIdx := args.length
  args ++ fields.enum.map fun iF => (iF.2, startIdx + iF.1, replacement eloc)

/-- The `match_pattern` positional-constructor arm's expansion (naming
pass): `missing` is the declared field count minus the argument count
(the ellipsis itself included), and the ellipsis is replaced by
wildcards. -/
def positionalEllipsisExpansion (fieldInfo : FieldInfo)
    (args : List (Ellipsis EPat)) : List (Field × Nat × EPat) :=
  let fields := fieldInfo.fieldCount
  let missing : Int := (fields : Int) - (args.length : Int)
  expandPositionalEllipsis missing args (fun _ => EPat.Wildcard)

/-- The number of explicit sub-patterns of a positional pattern. -/
def countBinders (args : List (Ellipsis α)) : Nat :=
  (args.filter fun a =>
    match a with
    | .Binder _ => true
    | .Ellipsis _ => false).length

/-- The number of `..`s of a positional pattern. -/
def countEllipses (args : List (Ellipsis α)) : Nat :=
  (args.filter fun a =>
    match a with
    | .Binder _ => false
    | .Ellipsis _ => true).length

/-! ## Shared expression ASTs (typing pass, and naming exps for macros) -/

/-- Values (`Value_`, a representative subset). -/
inductive Value where
  | InferredNum (n : Nat)
  | U8 (n : Nat)
  | U64 (n : Nat)
  | Bool (b : Bool)
  | Address (a : Symbol)
  deriving DecidableEq, Repr

/-- Modelled from the spec: `Value_::type_` gives the literal's type;
`InferredNum` has none (it becomes a numeric type variable). -/
def Value.typeOf : Value → Option Typ
  | .InferredNum _ => none
  | .U8 _ => some (.Apply none (.Builtin "u8") [])
  | .U64 _ => some (.Apply none (.Builtin "u64") [])
  | .Bool _ => some (.Apply none (.Builtin "bool") [])
  | .Address _ => some (.Apply none (.Builtin "address") [])

/-!
The naming-AST expressions (`N::Exp_`) needed by macro-argument
conversion: blocks carry an optional label, a from-macro-argument marker
and a use-fun scope (only its color matters here); the other constructors
stand for arbitrary expressions.
-/

mutual

inductive NExp where
  | Value (v : Value)
  | Var (v : NVar)
  | Block (name : Option BlockLabel) (fromMacroArgument : Option Loc)
      (useFunsColor : Nat) (seq : List NSeqItem)
  | Lambda (parameters : List NVar) (returnLabel : BlockLabel)
      (useFunColor : Nat) (body : NExp)
  | ModuleCall (m : Symbol) (f : Symbol) (args : List NExp)
  | Annot (e : NExp) (ty : Typ)
  | UnresolvedError
  deriving Repr

inductive NSeqItem where
  | Seq (e : NExp)
  | Declare (v : NVar)
  | Bind (v : NVar) (e : NExp)
  deriving Repr

end

/-!
The typed expressions (`T::UnannotatedExp_` / `T::Exp`) needed by the
dotted-path and macro-call fragments.
-/

mutual

inductive TUExp where
  | Use (v : NVar)
  | Move (var : NVar) (fromUser : Bool)
  | Copy (var : NVar) (fromUser : Bool)
  | BorrowLocal (isMut : Bool) (v : NVar)
  | TempBorrow (isMut : Bool) (e : TExp)
  | Borrow (isMut : Bool) (e : TExp) (f : Field)
  | Dereference (e : TExp)
  | Constant (m : Symbol) (c : Symbol)
  | Value (v : Value)
  | UnresolvedError
  deriving Repr

inductive TExp where
  | mk (ty : Typ) (eloc : Loc) (exp : TUExp)
  deriving Repr

end

def TExp.ty : TExp → Typ
  | .mk ty _ _ => ty

def TExp.eloc : TExp → Loc
  | .mk _ eloc _ => eloc

def TExp.uexp : TExp → TUExp
  | .mk _ _ exp => exp

/-! ## C3: macro call argument disciplines -/

/-- `macro_expand::EvalStrategy`: by-value (already typed) or by-name
(unevaluated). -/
inductive EvalStrategy (V N : Type) where
  | ByValue (v : V)
  | ByName (n : N)
  deriving Repr

/-- Whether the expression is already a block, a lambda, or the error
sentinel (the cases `convert_macro_arg_to_block` leaves unchanged). -/
def isBlockLambdaOrError : NExp → Bool
  | .Block _ _ _ _ => true
  | .Lambda _ _ _ _ => true
  | .UnresolvedError => true
  | _ => false

/-- `convert_macro_arg_to_block`: a macro argument that is not already a
block, a lambda, or an error sentinel is wrapped in an unnamed block
(`from_macro_argument` not yet set) whose use-fun scope carries the
caller's current call color, with the original expression as its single
sequence item. -/
def convertMacroArgToBlock (ctx : TCContext) (ne : NExp) : NExp :=
  match ne with
  | .Block name fromMacroArgument useFunsColor seq =>
    .Block name fromMacroArgument useFunsColor seq
  | .Lambda parameters returnLabel useFunColor body =>
    .Lambda parameters returnLabel useFunColor body
  | .UnresolvedError => .UnresolvedError
  | ne =>
    let color := ctx.currentCallColor
    let seq := [NSeqItem.Seq ne]
    NExp.Block none none color seq

/-- The argument list `macro_method_call` builds: the resolved receiver
by value first, then every other argument by name, converted to a
block. -/
def macroMethodCallArgs (ctx : TCContext) (firstArg : TExp)
    (nargs : List NExp) : List (EvalStrategy TExp NExp) :=
  let args := [EvalStrategy.ByValue firstArg]
  args ++ nargs.map fun e => EvalStrategy.ByName (convertMacroArgToBlock ctx e)

/-- The argument list `macro_module_call` builds: every argument by
name, converted to a block. -/
def macroModuleCallArgs (ctx : TCContext) (nargs : List NExp) :
    List (EvalStrategy TExp NExp) :=
  nargs.map fun e => EvalStrategy.ByName (convertMacroArgToBlock ctx e)

/-! ## C8: dotted-path usage (typing pass) -/

/-- `DottedUsage`. -/
inductive DottedUsage where
  | Move (loc : Loc)
  | Copy (loc : Loc)
  | Use
  | Borrow (isMut : Bool)
  deriving Repr

/-- The internal `ExpDotted_` of the typing pass: a leaf expression, a
leaf needing a temporary borrow, or a field access on a prior chain. -/
inductive ExpDotted where
  | Exp (dloc : Loc) (e : TExp)
  | TmpBorrow (dloc : Loc) (e : TExp) (desiredInnerTy : Typ)
  | Dot (dloc : Loc) (lhs : ExpDotted) (f : Field) (fieldTy : Typ)
  deriving Repr

/-- `env.check_feature`: report whether the feature is enabled for the
current package, recording a feature-gate diagnostic when it is not. -/
def checkFeature (ctx : TCContext) (loc : Loc) : TCContext × Bool :=
  if ctx.featureMove2024Paths then (ctx, true)
  else
    ({ ctx with diags := ctx.diags ++
        [{ code := DiagCode.FeatureGateError, loc := loc,
           msg := "feature is not supported by current edition" }] },
     false)

/-- Modelled from the spec: `context.mark_mutable_usage` records the
usage and reports the declaration site and mutability of the local;
declaration locations are abstracted to `0`. -/
def markMutableUsage (ctx : TCContext) (eloc : Loc) (v : NVar) :
    TCContext × (Loc × Bool) :=
  let _ := eloc
  (ctx, (0, (ctx.mutability.find? v).getD false))

/-- `check_mutability`: a mutable use of an immutable variable records an
invalid-immutable-usage diagnostic (the migration-edition arm is beyond
the embedded fragment). -/
def checkMutability (ctx : TCContext) (eloc : Loc) (usage : String)
    (v : NVar) : TCContext :=
  let cdm := markMutableUsage ctx eloc v
  let ctx := cdm.1
  let declLoc := cdm.2.1
  if cdm.2.2 then ctx
  else
    { ctx with diags := ctx.diags ++
        [{ code := DiagCode.InvalidImmVariableUsage, loc := eloc,
           msg := "Invalid " ++ usage ++ " of immutable variable '" ++
             v.name ++ "'",
           secondary := [(declLoc,
             "To use the variable mutably, it must be declared 'mut', e.g. 'mut "
               ++ v.name ++ "'")] }] }

/-- `warn_on_constant_borrow`. -/
def warnOnConstantBorrow (ctx : TCContext) (loc : Loc) (e : TExp) : TCContext :=
  match e.uexp with
  | .Constant _ _ =>
    { ctx with diags := ctx.diags ++
        [{ code := DiagCode.ImplicitConstantCopy, loc := loc,
           msg := "This access will make a new copy of the constant. Consider binding the value to a variable first to make this copy explicit" }] }
  | _ => ctx

/-- `exp_dotted_to_borrow`: a leaf expression is used as-is; a leaf
needing a borrow becomes a local borrow (checking mutability for a
mutable borrow of a variable) or a temporary borrow; a field access
borrows the prior chain and then the field, reporting a mutable borrow
through an immutable prefix. The ICE case (the prior chain's type not a
reference) sets the `ice` flag and degrades to the error sentinel. -/
def expDottedToBorrow (ctx : TCContext) (loc : Loc) (mut_ : Bool) :
    ExpDotted → TCContext × TExp
  | .Exp _ e => (ctx, e)
  | .TmpBorrow dloc eb desiredInnerTy =>
    let ebTy := eb.ty
    let ebloc := eb.eloc
    match eb.uexp with
    | .Use v =>
      let ctx := if mut_ then checkMutability ctx loc "mutable borrow" v else ctx
      (ctx, TExp.mk (.Ref mut_ desiredInnerTy) dloc (.BorrowLocal mut_ v))
    | eb_ =>
      (ctx, TExp.mk (.Ref mut_ desiredInnerTy) dloc
        (.TempBorrow mut_ (TExp.mk ebTy ebloc eb_)))
  | .Dot dloc lhs field fieldTy =>
    let cl := expDottedToBorrow ctx dloc mut_ lhs
    let ctx := cl.1
    let lhsBorrow := cl.2
    match unfoldType ctx.subst lhsBorrow.ty with
    | .Ref lhsMut _ =>
      let ctx :=
        if !lhsMut && mut_ then
          { ctx with diags := ctx.diags ++
              [{ code := DiagCode.RefTrans, loc := loc,
                 msg := "Invalid mutable borrow from an immutable reference",
                 secondary := [(0, "Immutable because of this position")] }] }
        else ctx
      (ctx, TExp.mk (.Ref mut_ fieldTy) dloc (.Borrow mut_ lhsBorrow field))
    | _ =>
      ({ ctx with ice := true },
       TExp.mk .UnresolvedError dloc .UnresolvedError)

/-- `exp_dotted_to_owned_value`: a chain without a field access yields
the leaf expression directly (only `Use` reaches this, from method
calls); a chain ending in a field access is immutably borrowed, and then
— for `'copy'` and implicit copy — dereferenced with a copy ability
constraint on the accessed field's type, while `move` on a path is
unsupported and degrades to the error sentinel (with an invalid-move
diagnostic under the Move-2024-paths feature). -/
def expDottedToOwnedValue (ctx : TCContext) (usage : DottedUsage)
    (eloc : Loc) (edot : ExpDotted) (innerTy : Typ) : TCContext × TExp :=
  match edot with
  | .Exp _ lhs => (ctx, lhs)
  | .TmpBorrow _ lhs _ => (ctx, lhs)
  | edot@(.Dot _ _ name _) =>
    let cb := expDottedToBorrow ctx eloc false edot
    let ctx := cb.1
    let eborrow := cb.2
    let cCase : TCContext × Option String :=
      match usage with
      | .Move loc =>
        let cf := checkFeature ctx loc
        let newSyntax := cf.2
        let ctx := cf.1
        let ctx :=
          if newSyntax then
            { ctx with diags := ctx.diags ++
                [{ code := DiagCode.InvalidMoveOp, loc := loc,
                   msg := "Invalid 'move'. 'move' works only with variables, e.g. 'move x'. 'move' on a path access is not supported" }] }
          else ctx
        (ctx, none)
      | .Copy loc =>
        let cf := checkFeature ctx loc
        (cf.1, some "'copy'")
      | .Use => (ctx, some "implicit copy")
      | .Borrow _ => ({ ctx with ice := true }, none)
    let ctx := cCase.1
    match cCase.2 with
    | some case =>
      let ctx := addAbilityConstraint ctx eloc
        (some ("Invalid " ++ case ++ " of field '" ++ name ++
          "' without the '" ++ Ability.Copy.toStr ++ "' ability"))
        innerTy Ability.Copy
      (ctx, TExp.mk innerTy eloc (.Dereference eborrow))
    | none =>
      (ctx, TExp.mk (errorType eloc) eloc .UnresolvedError)

/-- The `NE::ExpDotted(usage, Exp(_))` arms of `exp` (a plain,
dot-free access): `Use` passes the expression through; `Borrow` borrows
it (a local borrow for a variable, a temporary borrow otherwise);
`Move`/`Copy` of a variable move/copy it directly — no synthetic borrow —
with a copy ability constraint for `Copy`; anything else is an invalid
move/copy. -/
def expDottedUsagePlain (ctx : TCContext) (usage : DottedUsage)
    (eloc : Loc) (er : TExp) : TCContext × TExp :=
  match usage with
  | .Use => (ctx, er)
  | .Borrow mut_ =>
    let ctx := warnOnConstantBorrow ctx eloc er
    let ctx := addBaseTypeConstraint ctx eloc "Invalid borrow" er.ty
    let ty := Typ.Ref mut_ er.ty
    match er.uexp with
    | .Use v =>
      let ctx := if mut_ then checkMutability ctx eloc "mutable borrow" v else ctx
      (ctx, TExp.mk ty eloc (.BorrowLocal mut_ v))
    | erexp => (ctx, TExp.mk ty eloc (.TempBorrow mut_ (TExp.mk er.ty er.eloc erexp)))
  | .Move loc =>
    match er.uexp with
    | .Use var => (ctx, TExp.mk er.ty eloc (.Move var true))
    | .UnresolvedError => (ctx, TExp.mk er.ty eloc .UnresolvedError)
    | er_ =>
      let msg :=
        match er_ with
        | .Constant _ _ => "Invalid 'move'. Cannot 'move' constants"
        | _ => "Invalid 'move'. Expected a variable or path."
      let ctx := { ctx with diags := ctx.diags ++
        [{ code := DiagCode.InvalidMoveOp, loc := loc, msg := msg }] }
      (ctx, TExp.mk (errorType eloc) eloc .UnresolvedError)
  | .Copy loc =>
    let cte : TCContext × Option (Typ × TUExp) :=
      match er.uexp with
      | .Use var => (ctx, some (er.ty, .Copy var true))
      | .Constant m c =>
        let cf := checkFeature ctx loc
        (cf.1, some (er.ty, .Constant m c))
      | .UnresolvedError => (ctx, some (er.ty, .UnresolvedError))
      | _ =>
        let ctx := { ctx with diags := ctx.diags ++
          [{ code := DiagCode.InvalidCopyOp, loc := loc,
             msg := "Invalid 'copy'. Expected a variable or path." }] }
        (ctx, none)
    let ctx := cte.1
    match cte.2 with
    | some (ty, ecopy) =>
      let ctx :=
        match ecopy with
        | .UnresolvedError => ctx
        | _ => addAbilityConstraint ctx eloc
            (some "Invalid 'copy' of owned value without the 'copy' ability")
            ty Ability.Copy
      (ctx, TExp.mk ty eloc ecopy)
    | none => (ctx, TExp.mk (errorType eloc) eloc .UnresolvedError)

/-! ## C10: pattern typing (typing pass) -/

/-- The per-module enum information `make_enum_type` and
`make_variant_field_types` consult (the context's module tables,
declared outside `src/`). -/
structure EnumInfo where
  mident : Symbol
  name : Symbol
  tparams : List TParam
  variants : List (Symbol × VariantFields)

/-- `core::make_tvar`: allocate a fresh type variable. -/
def makeTvar (ctx : TCContext) (loc : Loc) : TCContext × Typ :=
  let _ := loc
  ({ ctx with tvarCounter := ctx.tvarCounter + 1 }, .Var ctx.tvarCounter)

/-- Modelled from the spec: `core::make_num_tvar` allocates a fresh type
variable for an inferred numeric literal (its numeric-kind bookkeeping
lives in the substitution, outside the claims). -/
def makeNumTvar (ctx : TCContext) (loc : Loc) : TCContext × Typ :=
  makeTvar ctx loc

/-- Modelled from the spec: `context.get_local_type`. -/
def getLocalType (ctx : TCContext) (v : NVar) : Typ :=
  (ctx.locals.find? v).getD .UnresolvedError

/-- Modelled from the spec: `core::make_enum_type` builds the enum type
at the given (or freshly instantiated) type arguments. -/
def makeEnumType (env : List EnumInfo) (ctx : TCContext) (loc : Loc)
    (m enum_ : Symbol) (tysOpt : Option (List Typ)) :
    TCContext × (Typ × List Typ) :=
  let _ := loc
  match env.find? fun ei => decide (ei.mident = m ∧ ei.name = enum_) with
  | none => (ctx, (.UnresolvedError, tysOpt.getD []))
  | some ei =>
    match tysOpt with
    | some tys => (ctx, (.Apply none (.ModuleType m enum_) tys, tys))
    | none =>
      let n := ei.tparams.length
      let targs := (List.range n).map fun i => Typ.Var (ctx.tvarCounter + i)
      ({ ctx with tvarCounter := ctx.tvarCounter + n },
       (.Apply none (.ModuleType m enum_) targs, targs))

/-- Modelled from the spec: `core::make_variant_field_types` looks the
variant's declared fields up and substitutes the enum's type parameters
by the given type arguments. -/
def makeVariantFieldTypes (env : List EnumInfo) (ctx : TCContext) (loc : Loc)
    (m enum_ variant : Symbol) (targs : List Typ) :
    TCContext × VariantFields :=
  let _ := loc
  match env.find? fun ei => decide (ei.mident = m ∧ ei.name = enum_) with
  | none => (ctx, .Empty)
  | some ei =>
    match ei.variants.find? fun v => decide (v.1 = variant) with
    | none => (ctx, .Empty)
    | some (_, .Empty) => (ctx, .Empty)
    | some (_, .Defined fields) =>
      (ctx, .Defined (fields.map fun f =>
        (f.1, f.2.1, substTparams (makeTparamSubst ei.tparams targs) f.2.2)))

/-- `add_variant_field_types` (for patterns; the pattern payload is kept
outside, so this returns the declared type per given field): report a
missing binding for each declared field not in the pattern, an
unbound-field diagnostic for each pattern field not declared, and give
every given field its declared type (the error type when unbound or the
variant is empty but fields were given). -/
def addVariantFieldTypes (env : List EnumInfo) (ctx : TCContext) (loc : Loc)
    (verb : String) (m enum_ variant : Symbol) (targs : List Typ)
    (fields : List (Field × Nat)) : TCContext × List (Field × Nat × Typ) :=
  let cf := makeVariantFieldTypes env ctx loc m enum_ variant targs
  let ctx := cf.1
  match cf.2 with
  | .Empty =>
    if !fields.isEmpty then
      let msg := "Invalid usage for empty variant '" ++ m ++ "::" ++ enum_ ++
        "::" ++ variant ++ "'. Empty variants do not take any arguments."
      ({ ctx with diags := ctx.diags ++
          [{ code := DiagCode.InvalidNativeUsage, loc := loc, msg := msg }] },
       fields.map fun f => (f.1, f.2, errorType 0))
    else (ctx, [])
  | .Defined fieldsTy =>
    let ctx := fieldsTy.foldl (fun c ft =>
      if (fields.find? fun f => decide (f.1 = ft.1)).isNone then
        { c with diags := c.diags ++
            [{ code := DiagCode.TooFewArguments, loc := loc,
               msg := "Missing " ++ verb ++ " for field '" ++ ft.1 ++
                 "' in '" ++ m ++ "::" ++ enum_ ++ "::" ++ variant ++ "'" }] }
      else c) ctx
    let cres := fields.foldl (fun (acc : TCContext × List (Field × Nat × Typ)) f =>
      match fieldsTy.find? fun ft => decide (ft.1 = f.1) with
      | none =>
        ({ acc.1 with diags := acc.1.diags ++
            [{ code := DiagCode.UnboundField, loc := loc,
               msg := "Unbound field '" ++ f.1 ++ "' in '" ++ m ++ "::" ++
                 enum_ ++ "::" ++ variant ++ "'" }] },
         acc.2 ++ [(f.1, f.2, errorType 0)])
      | some ft => (acc.1, acc.2 ++ [(f.1, f.2, ft.2.2)])) (ctx, [])
    cres

/-- The naming-AST match patterns (`N::MatchPattern_`). -/
inductive NPat where
  | Constructor (ploc : Loc) (m enum_ variant : Symbol)
      (tysOpt : Option (List Typ)) (fields : List (Field × Nat × NPat))
  | Binder (ploc : Loc) (x : NVar)
  | Literal (ploc : Loc) (v : Value)
  | Wildcard (ploc : Loc)
  | Or (ploc : Loc) (lhs rhs : NPat)
  | At (ploc : Loc) (x : NVar) (inner : NPat)
  | ErrorPat (ploc : Loc)
  deriving Repr

/-!
The typed match patterns (`T::MatchPattern` / `T::UnannotatedPat_`).
-/

mutual

inductive TPatU where
  | Constructor (m enum_ variant : Symbol) (targs : List Typ)
      (fields : List (Field × Nat × Typ × TPat))
  | BorrowConstructor (m enum_ variant : Symbol) (targs : List Typ)
      (fields : List (Field × Nat × Typ × TPat))
  | Binder (x : NVar)
  | Literal (v : Value)
  | Wildcard
  | Or (lhs rhs : TPat)
  | At (x : NVar) (inner : TPat)
  | ErrorPat
  deriving Repr

inductive TPat where
  | mk (ty : Typ) (pat : TPatU)
  deriving Repr

end

def TPat.ty : TPat → Typ
  | .mk ty _ => ty

def TPat.pat : TPat → TPatU
  | .mk _ pat => pat

/-- The `rtype!` macro of `match_pattern`: under a reference subject the
pattern's type is the matching reference type. -/
def rtype (mutRef : Option Bool) (ty : Typ) : Typ :=
  match mutRef with
  | some m => .Ref m ty
  | none => ty

/-!
`match_pattern` (typing pass). `mut_ref` is `none` for a by-value
subject, `some mut` under a reference subject. A literal pattern adds a
copy ability obligation unconditionally; a wildcard adds a drop ability
obligation only for a by-value subject. In the constructor arm the
source maps over the fields zipped with their declared types; here the
declared type is looked up by field name so that the recursion stays
structural.
-/

mutual

def matchPattern (env : List EnumInfo) (ctx : TCContext) :
    NPat → Option Bool → TCContext × TPat
  | .Constructor ploc m enum_ variant tysOpt fields, mutRef =>
    let cbt := makeEnumType env ctx ploc m enum_ tysOpt
    let ctx := cbt.1
    let bt := cbt.2.1
    let targs := cbt.2.2
    let cft := addVariantFieldTypes env ctx ploc "pattern" m enum_ variant
      targs (fields.map fun f => (f.1, f.2.1))
    let ctx := cft.1
    let typedFields := cft.2
    let ftyOf : Field → Typ := fun f =>
      ((typedFields.find? fun tf => decide (tf.1 = f)).map
        fun tf => tf.2.2).getD (errorType 0)
    let ctf := matchPatternFields env ctx ftyOf fields mutRef
    let ctx := ctf.1
    let tfields := ctf.2
    let ctx :=
      if decide (ctx.currentModule = m) then ctx
      else
        { ctx with diags := ctx.diags ++
            [{ code := DiagCode.Visibility, loc := ploc,
               msg := "Invalid deconstructing pattern for '" ++ m ++ "::" ++
                 enum_ ++ "::" ++ variant ++
                 "'. All enums can only be matched in the module in which they are declared" }] }
    let bt := rtype mutRef bt
    let pat_ : TPatU :=
      if mutRef.isSome then .BorrowConstructor m enum_ variant targs tfields
      else .Constructor m enum_ variant targs tfields
    (ctx, TPat.mk bt pat_)
  | .Binder _ x, _ =>
    (ctx, TPat.mk (getLocalType ctx x) (.Binder x))
  | .Literal ploc v, mutRef =>
    let cty : TCContext × Typ :=
      match v with
      | .InferredNum _ => makeNumTvar ctx ploc
      | _ => (ctx, (Value.typeOf v).getD .UnresolvedError)
    let ctx := addAbilityConstraint cty.1 ploc
      (some "Cannot ignore values without the 'copy' ability. Literal patterns copy their values for equality checking")
      cty.2 Ability.Copy
    (ctx, TPat.mk (rtype mutRef cty.2) (.Literal v))
  | .Wildcard ploc, mutRef =>
    let cty := makeTvar ctx ploc
    let ctx :=
      if mutRef.isNone then
        addAbilityConstraint cty.1 ploc
          (some "Cannot ignore values without the 'drop' ability. '_' patterns discard their values")
          cty.2 Ability.Drop
      else cty.1
    (ctx, TPat.mk (rtype mutRef cty.2) .Wildcard)
  | .Or ploc lhs rhs, mutRef =>
    let cl := matchPattern env ctx lhs mutRef
    let cr := matchPattern env cl.1 rhs mutRef
    let cj := join cr.1 ploc "ICE unresolved error join, failed"
      cl.2.ty cr.2.ty
    (cj.1, TPat.mk cj.2 (.Or cl.2 cr.2))
  | .At ploc x inner, mutRef =>
    let ci := matchPattern env ctx inner mutRef
    let xTy := getLocalType ci.1 x
    let cs := subtype ci.1 ploc "Invalid inner pattern type" ci.2.ty xTy
    (cs.1, TPat.mk cs.2 (.At x ci.2))
  | .ErrorPat ploc, _ =>
    let cty := makeTvar ctx ploc
    (cty.1, TPat.mk cty.2 .ErrorPat)

def matchPatternFields (env : List EnumInfo) (ctx : TCContext)
    (ftyOf : Field → Typ) :
    List (Field × Nat × NPat) → Option Bool →
      TCContext × List (Field × Nat × Typ × TPat)
  | [], _ => (ctx, [])
  | (f, idx, npat) :: rest, mutRef =>
    let ct := matchPattern env ctx npat mutRef
    let ftyRef := rtype mutRef (ftyOf f)
    let cs := subtype ct.1 0 "Invalid pattern field type" ct.2.ty ftyRef
    let cr := matchPatternFields env cs.1 ftyOf rest mutRef
    (cr.1, (f, idx, cs.2, ct.2) :: cr.2)

end

/-- `s` contains `sub` as a substring (used to state that a diagnostic
quotes a type's rendering). -/
def mentions (s sub : String) : Prop :=
  ∃ pre post, s = pre ++ sub ++ post

/-! # Theorems -/

/-! ## Supporting lemmas -/

theorem findq_insert_self [DecidableEq α] (m : AssocMap α β) (k : α) (v : β) :
    (m.insert k v).find? k = some v := by
  simp [AssocMap.insert, AssocMap.find?]

theorem findq_insert_ne [DecidableEq α] (m : AssocMap α β) (k k' : α) (v : β)
    (h : k' ≠ k) : (m.insert k v).find? k' = m.find? k' := by
  simp [AssocMap.insert, AssocMap.find?, List.find?_cons, Ne.symm h]

/-! ## C1 -/

/-- C1: for every instantiation of a generic datatype whose type-argument
count differs from the declared arity, `check_type_argument_arity` returns
exactly `arity` arguments — a prefix of the given arguments (truncation
from the end) padded with `UnresolvedError` sentinels — and emits exactly
one diagnostic: too-many-type-arguments when there are more arguments
than the arity, too-few-type-arguments when there are fewer. -/
theorem checkTypeArgumentArity_arity_tolerance (loc : Loc) (name : String)
    (tyArgs : List Typ) (arity : Nat) (h : tyArgs.length ≠ arity) :
    ((checkTypeArgumentArity loc name tyArgs arity).2.length = arity) ∧
    ((checkTypeArgumentArity loc name tyArgs arity).2 =
      tyArgs.take arity ++
        List.replicate (arity - tyArgs.length) Typ.UnresolvedError) ∧
    ((checkTypeArgumentArity loc name tyArgs arity).1.length = 1) ∧
    (∀ d ∈ (checkTypeArgumentArity loc name tyArgs arity).1,
      d.code = if tyArgs.length > arity then DiagCode.TooManyTypeArguments
               else DiagCode.TooFewTypeArguments) := by
  refine ⟨?_, ?_, ?_, ?_⟩
  · simp only [checkTypeArgumentArity, List.length_append, List.length_take,
      List.length_replicate]
    omega
  · simp only [checkTypeArgumentArity, List.length_take]
    have hmin : arity - min arity tyArgs.length = arity - tyArgs.length := by
      rcases Nat.le_total arity tyArgs.length with hle | hle
      · rw [Nat.min_eq_left hle]; omega
      · rw [Nat.min_eq_right hle]
    rw [hmin]
  · simp [checkTypeArgumentArity, h]
  · intro d hd
    simp [checkTypeArgumentArity, h] at hd
    subst hd
    rcases Nat.lt_or_ge arity tyArgs.length with hlt | hge
    · simp [hlt]
    · have hlt' : tyArgs.length < arity := by omega
      simp [Nat.not_lt.mpr hge, hlt']

/-- Witness for C1 at a concrete input: three arguments against arity
one. -/
theorem checkTypeArgumentArity_arity_tolerance_witness :
    (([Typ.Unit, Typ.Unit, Typ.Unit] : List Typ).length ≠ 1) ∧
    (((checkTypeArgumentArity 0 "T" [Typ.Unit, Typ.Unit, Typ.Unit] 1).2.length = 1) ∧
     ((checkTypeArgumentArity 0 "T" [Typ.Unit, Typ.Unit, Typ.Unit] 1).2 =
       [Typ.Unit, Typ.Unit, Typ.Unit].take 1 ++
         List.replicate (1 - [Typ.Unit, Typ.Unit, Typ.Unit].length) Typ.UnresolvedError) ∧
     ((checkTypeArgumentArity 0 "T" [Typ.Unit, Typ.Unit, Typ.Unit] 1).1.length = 1) ∧
     (∀ d ∈ (checkTypeArgumentArity 0 "T" [Typ.Unit, Typ.Unit, Typ.Unit] 1).1,
       d.code = if [Typ.Unit, Typ.Unit, Typ.Unit].length > 1
                then DiagCode.TooManyTypeArguments
                else DiagCode.TooFewTypeArguments)) :=
  ⟨by decide, checkTypeArgumentArity_arity_tolerance 0 "T"
    [Typ.Unit, Typ.Unit, Typ.Unit] 1 (by decide)⟩

/-! ## C4 -/

theorem idsOf_cons_self (v : NVar) (vs : List NVar) (name : Symbol)
    (h : v.name = name) : idsOf (v :: vs) name = v.id :: idsOf vs name := by
  simp [idsOf, h]

theorem idsOf_cons_ne (v : NVar) (vs : List NVar) (name : Symbol)
    (h : v.name ≠ name) : idsOf (v :: vs) name = idsOf vs name := by
  simp [idsOf, h]

theorem paramsOf_declare_self (p : Bool) (n : Symbol) (ops : List LocalOp) :
    paramsOf (.declare p n :: ops) n = p :: paramsOf ops n := by
  simp [paramsOf]

theorem paramsOf_declare_ne (p : Bool) (n name : Symbol) (ops : List LocalOp)
    (h : n ≠ name) : paramsOf (.declare p n :: ops) name = paramsOf ops name := by
  simp [paramsOf, h]

theorem paramsOf_push (ops : List LocalOp) (name : Symbol) :
    paramsOf (.push :: ops) name = paramsOf ops name := by
  simp [paramsOf]

theorem paramsOf_pop (ops : List LocalOp) (name : Symbol) :
    paramsOf (.pop :: ops) name = paramsOf ops name := by
  simp [paramsOf]

theorem runLocalOps_idsOf :
    ∀ (ops : List LocalOp) (ctx ctxF : NamingContext) (vs : List NVar),
      runLocalOps ctx ops = some (ctxF, vs) →
      ∀ name, idsOf vs name =
        nextIds (AssocMap.find? ctx.localCount name) (paramsOf ops name) := by
  intro ops
  induction ops with
  | nil =>
    intro ctx ctxF vs h name
    simp only [runLocalOps, Option.some.injEq, Prod.mk.injEq] at h
    obtain ⟨-, rfl⟩ := h
    simp [idsOf, paramsOf, nextIds]
  | cons op ops ih =>
    intro ctx ctxF vs h name
    match op with
    | .declare p n =>
      rw [runLocalOps] at h
      split at h
      · exact absurd h (by simp)
      rename_i ctx₁ v heq
      split at h
      · exact absurd h (by simp)
      rename_i ctxF' vs₁ heq₂
      simp only [Option.some.injEq, Prod.mk.injEq] at h
      obtain ⟨rfl, rfl⟩ := h
      unfold declareLocal at heq
      split at heq
      · exact absurd heq (by simp)
      rename_i top rest hscopes
      simp only [Option.some.injEq, Prod.mk.injEq] at heq
      obtain ⟨rfl, rfl⟩ := heq
      have ihv := ih _ _ _ heq₂
      by_cases hname : n = name
      · subst hname
        rw [idsOf_cons_self _ _ _ rfl, paramsOf_declare_self, ihv n]
        have hfind : ({ ctx with
            localCount := ctx.localCount.insert n (localIdFor ctx.localCount p n),
            localScopes := top.insert n (localIdFor ctx.localCount p n) :: rest
          } : NamingContext).localCount.find? n =
            some (localIdFor ctx.localCount p n) := findq_insert_self _ _ _
        rw [hfind]
        simp [nextIds, localIdFor]
      · rw [idsOf_cons_ne _ _ _ (by simp [hname]), paramsOf_declare_ne _ _ _ _ hname,
          ihv name]
        have hfind : ({ ctx with
            localCount := ctx.localCount.insert n (localIdFor ctx.localCount p n),
            localScopes := top.insert n (localIdFor ctx.localCount p n) :: rest
          } : NamingContext).localCount.find? name = ctx.localCount.find? name :=
          findq_insert_ne _ _ _ _ (fun hh => hname hh.symm)
        rw [hfind]
    | .push =>
      rw [runLocalOps] at h
      split at h
      · exact absurd h (by simp)
      rename_i ctx₁ heq
      unfold newLocalScope at heq
      split at heq
      · exact absurd heq (by simp)
      rename_i top rest hscopes
      simp only [Option.some.injEq] at heq
      subst heq
      have := ih _ _ _ h name
      simpa [paramsOf] using this
    | .pop =>
      rw [runLocalOps] at h
      have := ih _ _ _ h name
      simpa [paramsOf, closeLocalScope] using this

theorem nextIds_some_get :
    ∀ (ps : List Bool) (c k : Nat) (hk : k < (nextIds (some c) ps).length),
      (nextIds (some c) ps).get ⟨k, hk⟩ = c + 1 + k := by
  intro ps
  induction ps with
  | nil => intro c k hk; simp [nextIds] at hk
  | cons p ps ih =>
    intro c k hk
    cases k with
    | zero => simp [nextIds, nextIdStep]
    | succ k =>
      have hk' : k < (nextIds (some (nextIdStep (some c) p)) ps).length := by
        simpa [nextIds] using hk
      have step : (nextIds (some c) (p :: ps)).get ⟨k + 1, hk⟩ =
          (nextIds (some (nextIdStep (some c) p)) ps).get ⟨k, hk'⟩ := rfl
      rw [step, ih _ _ hk']
      simp [nextIdStep]
      omega

theorem nextIds_none_get (p₀ : Bool) (ps : List Bool) (k : Nat)
    (hk : k < (nextIds none (p₀ :: ps)).length) :
    (nextIds none (p₀ :: ps)).get ⟨k, hk⟩ = (if p₀ then 0 else 1) + k := by
  cases k with
  | zero => simp [nextIds, nextIdStep]
  | succ k =>
    have hk' : k < (nextIds (some (nextIdStep none p₀)) ps).length := by
      simpa [nextIds] using hk
    have step : (nextIds none (p₀ :: ps)).get ⟨k + 1, hk⟩ =
        (nextIds (some (nextIdStep none p₀)) ps).get ⟨k, hk'⟩ := rfl
    rw [step, nextIds_some_get _ _ _ hk']
    simp [nextIdStep]
    omega

theorem scopesOfFrames_headD :
    ∀ fs : List (List (Symbol × Nat)), (scopesOfFrames fs).headD [] = fs.flatten := by
  intro fs
  induction fs with
  | nil => rfl
  | cons f fs ih =>
    show ((f ++ (scopesOfFrames fs).headD []) :: scopesOfFrames fs).headD [] = _
    rw [List.headD_cons, ih]
    simp

theorem scopesOfFrames_cons (f : List (Symbol × Nat))
    (fs : List (List (Symbol × Nat))) :
    scopesOfFrames (f :: fs) = (f :: fs).flatten :: scopesOfFrames fs := by
  show (f ++ (scopesOfFrames fs).headD []) :: scopesOfFrames fs = _
  rw [scopesOfFrames_headD]
  simp

theorem runLocalOps_declare_some {ctx : NamingContext} {p : Bool} {n : Symbol}
    {ctx₁ : NamingContext} {v : NVar} (ops : List LocalOp)
    (h : declareLocal ctx p n = some (ctx₁, v)) :
    runLocalOps ctx (.declare p n :: ops) =
      match runLocalOps ctx₁ ops with
      | none => none
      | some (ctxF, vs) => some (ctxF, v :: vs) := by
  rw [runLocalOps, h]

theorem runLocalOps_declare_none {ctx : NamingContext} {p : Bool} {n : Symbol}
    (ops : List LocalOp) (h : declareLocal ctx p n = none) :
    runLocalOps ctx (.declare p n :: ops) = none := by
  rw [runLocalOps, h]

theorem runLocalOps_push_some {ctx ctx₁ : NamingContext} (ops : List LocalOp)
    (h : newLocalScope ctx = some ctx₁) :
    runLocalOps ctx (.push :: ops) = runLocalOps ctx₁ ops := by
  rw [runLocalOps, h]

theorem runLocalOps_push_none {ctx : NamingContext} (ops : List LocalOp)
    (h : newLocalScope ctx = none) :
    runLocalOps ctx (.push :: ops) = none := by
  rw [runLocalOps, h]

theorem specRun_declare_cons {s : SpecScopes} {f : List (Symbol × Nat)}
    {fs : List (List (Symbol × Nat))} (p : Bool) (n : Symbol)
    (ops : List LocalOp) (hfr : s.frames = f :: fs) :
    specRun s (.declare p n :: ops) =
      specRun { frames := ((n, nextIdStep (s.count.find? n) p) :: f) :: fs,
                count := s.count.insert n (nextIdStep (s.count.find? n) p) } ops := by
  rw [specRun, hfr]

theorem specRun_declare_nil {s : SpecScopes} (p : Bool) (n : Symbol)
    (ops : List LocalOp) (hfr : s.frames = []) :
    specRun s (.declare p n :: ops) = none := by
  rw [specRun, hfr]

theorem specRun_push_cons {s : SpecScopes} {f : List (Symbol × Nat)}
    {fs : List (List (Symbol × Nat))} (ops : List LocalOp)
    (hfr : s.frames = f :: fs) :
    specRun s (.push :: ops) = specRun { s with frames := [] :: f :: fs } ops := by
  rw [specRun, hfr]

theorem specRun_push_nil {s : SpecScopes} (ops : List LocalOp)
    (hfr : s.frames = []) : specRun s (.push :: ops) = none := by
  rw [specRun, hfr]

theorem runLocalOps_refines_specRun :
    ∀ (ops : List LocalOp) (ctx : NamingContext) (s : SpecScopes),
      scopesMatch ctx s →
      (runLocalOps ctx ops = none ∧ specRun s ops = none) ∨
      (∃ ctxF vs sF, runLocalOps ctx ops = some (ctxF, vs) ∧
        specRun s ops = some sF ∧ scopesMatch ctxF sF) := by
  intro ops
  induction ops with
  | nil =>
    intro ctx s hm
    right
    exact ⟨ctx, [], s, rfl, rfl, hm⟩
  | cons op ops ih =>
    intro ctx s hm
    obtain ⟨hs, hc⟩ := hm
    match op with
    | .declare p n =>
      cases hfr : s.frames with
      | nil =>
        left
        have hempty : ctx.localScopes = [] := by rw [hs, hfr]; rfl
        exact ⟨runLocalOps_declare_none ops (by simp [declareLocal, hempty]),
          specRun_declare_nil p n ops hfr⟩
      | cons f fs =>
        have hscope : ctx.localScopes = (f :: fs).flatten :: scopesOfFrames fs := by
          rw [hs, hfr, scopesOfFrames_cons]
        have hid : localIdFor ctx.localCount p n = nextIdStep (s.count.find? n) p := by
          rw [localIdFor, hc]
        have hdl : declareLocal ctx p n =
            some ({ ctx with
                      localCount := ctx.localCount.insert n (localIdFor ctx.localCount p n),
                      localScopes :=
                        AssocMap.insert ((f :: fs).flatten) n (localIdFor ctx.localCount p n)
                          :: scopesOfFrames fs },
                  ⟨n, localIdFor ctx.localCount p n, 0⟩) := by
          unfold declareLocal
          rw [hscope]
        have hmatch : scopesMatch
            ({ ctx with
                localCount := ctx.localCount.insert n (localIdFor ctx.localCount p n),
                localScopes :=
                  AssocMap.insert ((f :: fs).flatten) n (localIdFor ctx.localCount p n)
                    :: scopesOfFrames fs })
            { frames := ((n, nextIdStep (s.count.find? n) p) :: f) :: fs,
              count := s.count.insert n (nextIdStep (s.count.find? n) p) } := by
          constructor
          · rw [scopesOfFrames_cons]
            simp [AssocMap.insert, hid]
          · simp [AssocMap.insert, hc, hid, localIdFor]
        rcases ih _ _ hmatch with ⟨h1, h2⟩ | ⟨ctxF, vs, sF, h1, h2, h3⟩
        · left
          rw [runLocalOps_declare_some ops hdl, h1, specRun_declare_cons p n ops hfr, h2]
          exact ⟨rfl, rfl⟩
        · right
          refine ⟨ctxF, ⟨n, localIdFor ctx.localCount p n, 0⟩ :: vs, sF, ?_, ?_, h3⟩
          · rw [runLocalOps_declare_some ops hdl, h1]
          · rw [specRun_declare_cons p n ops hfr, h2]
    | .push =>
      cases hfr : s.frames with
      | nil =>
        left
        have hempty : ctx.localScopes = [] := by rw [hs, hfr]; rfl
        exact ⟨runLocalOps_push_none ops (by simp [newLocalScope, hempty]),
          specRun_push_nil ops hfr⟩
      | cons f fs =>
        have hscope : ctx.localScopes = (f :: fs).flatten :: scopesOfFrames fs := by
          rw [hs, hfr, scopesOfFrames_cons]
        have hnl : newLocalScope ctx =
            some { ctx with localScopes :=
                (f :: fs).flatten :: (f :: fs).flatten :: scopesOfFrames fs } := by
          unfold newLocalScope
          rw [hscope]
        have hmatch : scopesMatch
            { ctx with localScopes :=
                (f :: fs).flatten :: (f :: fs).flatten :: scopesOfFrames fs }
            { s with frames := [] :: f :: fs } := by
          constructor
          · rw [scopesOfFrames_cons, scopesOfFrames_cons]
            simp
          · exact hc
        rcases ih _ _ hmatch with ⟨h1, h2⟩ | ⟨ctxF, vs, sF, h1, h2, h3⟩
        · left
          rw [runLocalOps_push_some ops hnl, specRun_push_cons ops hfr]
          exact ⟨h1, h2⟩
        · right
          refine ⟨ctxF, vs, sF, ?_, ?_, h3⟩
          · rw [runLocalOps_push_some ops hnl]
            exact h1
          · rw [specRun_push_cons ops hfr]
            exact h2
    | .pop =>
      have hmatch : scopesMatch (closeLocalScope ctx)
          { s with frames := s.frames.tail } := by
        constructor
        · rw [closeLocalScope]
          simp only [hs]
          cases hfr : s.frames with
          | nil => simp [scopesOfFrames]
          | cons f fs => rw [scopesOfFrames_cons]; rfl
        · exact hc
      rcases ih _ _ hmatch with ⟨h1, h2⟩ | ⟨ctxF, vs, sF, h1, h2, h3⟩
      · left
        exact ⟨by rw [runLocalOps]; exact h1, by rw [specRun]; exact h2⟩
      · right
        exact ⟨ctxF, vs, sF, by rw [runLocalOps]; exact h1,
          by rw [specRun]; exact h2, h3⟩

/-- C4 (amended): over any well-scoped sequence of declarations and scope
pushes/pops in one function, `declare_local` assigns the first declaration
of a name the id `0` if that declaration is a parameter and `1` otherwise,
and assigns each subsequent declaration of the same name the previous
declaration's id plus one — equivalently, `(0 if the FIRST declaration of
the name was a parameter else 1)` plus the count of prior declarations —
and `resolve_local` resolves a name to the most recent declaration still
in scope (reference semantics: innermost-frame-first, newest-first,
declarations of closed scopes discarded). -/
theorem declareLocal_id_and_resolution (ops : List LocalOp)
    (ctxF : NamingContext) (vs : List NVar)
    (h : runLocalOps initialNamingContext ops = some (ctxF, vs)) :
    (∀ name, idsOf vs name = nextIds none (paramsOf ops name)) ∧
    (∀ name k (hk : k < (idsOf vs name).length),
      (idsOf vs name).get ⟨k, hk⟩ =
        (if (paramsOf ops name).head? = some true then 0 else 1) + k) ∧
    (∃ sF, specRun initialSpecScopes ops = some sF ∧
      ∀ loc code msg name, sF.frames ≠ [] →
        (resolveLocal ctxF loc code msg name).map Prod.snd =
          some ((specResolve sF name).map fun id => (⟨name, id, 0⟩ : NVar))) := by
  have hids := runLocalOps_idsOf ops _ _ _ h
  have hids' : ∀ name, idsOf vs name = nextIds none (paramsOf ops name) := by
    intro name
    have := hids name
    simpa [initialNamingContext, AssocMap.find?] using this
  refine ⟨hids', ?_, ?_⟩
  · intro name k hk
    cases hp : paramsOf ops name with
    | nil =>
      exfalso
      rw [hids' name, hp] at hk
      simp [nextIds] at hk
    | cons p₀ ps =>
      have heq : idsOf vs name = nextIds none (p₀ :: ps) := by rw [hids' name, hp]
      have hk' : k < (nextIds none (p₀ :: ps)).length := by rw [← heq]; exact hk
      rw [List.get_of_eq heq ⟨k, hk⟩, nextIds_none_get p₀ ps k hk']
      cases p₀ <;> simp
  · have hinit : scopesMatch initialNamingContext initialSpecScopes := ⟨rfl, rfl⟩
    rcases runLocalOps_refines_specRun ops _ _ hinit with ⟨h1, _⟩ |
      ⟨ctxF', vs', sF, h1, h2, h3⟩
    · rw [h] at h1; cases h1
    · rw [h] at h1
      simp only [Option.some.injEq, Prod.mk.injEq] at h1
      obtain ⟨hctx, hvs⟩ := h1
      subst hctx
      subst hvs
      refine ⟨sF, h2, ?_⟩
      intro loc code msg name hne
      obtain ⟨hsc, -⟩ := h3
      cases hfr : sF.frames with
      | nil => exact absurd hfr hne
      | cons f fs =>
        have hscope : ctxF.localScopes = (f :: fs).flatten :: scopesOfFrames fs := by
          rw [hsc, hfr, scopesOfFrames_cons]
        have hres : specResolve sF name = AssocMap.find? ((f :: fs).flatten) name := by
          rw [specResolve, hfr]
        unfold resolveLocal
        rw [hscope, hres]
        cases hfind : AssocMap.find? ((f :: fs).flatten) name with
        | none =>
          rw [List.flatten_cons] at hfind
          simp [hfind]
        | some id =>
          rw [List.flatten_cons] at hfind
          simp [hfind]

/-- C4 counterexample: the claimed formula
`id = (0 if the binding is a parameter else 1) + count of prior
declarations of the name` fails when a `let` shadows a parameter: for the
declaration sequence `parameter x; let x` the code assigns ids `[0, 1]`,
while the formula gives the second declaration
`claimedLocalId false 1 = 2`. -/
theorem declareLocal_id_counterexample :
    ((runLocalOps initialNamingContext
        [LocalOp.declare true "x", LocalOp.declare false "x"]).map
      fun r => r.2.map NVar.id) = some [0, 1] ∧
    claimedLocalId false 1 = 2 ∧ (1 : Nat) ≠ claimedLocalId false 1 := by
  refine ⟨rfl, rfl, by decide⟩

/-- Witness for C4 at a concrete input: a single non-parameter
declaration of `x`. -/
theorem declareLocal_id_and_resolution_witness :
    (runLocalOps initialNamingContext [LocalOp.declare false "x"] =
      some ({ localScopes := [[("x", 1)]], localCount := [("x", 1)],
              usedLocals := [], nominalBlocks := [], nominalBlockId := 0,
              diags := [] }, [⟨"x", 1, 0⟩])) ∧
    ((∀ name, idsOf [⟨"x", 1, 0⟩] name =
        nextIds none (paramsOf [LocalOp.declare false "x"] name)) ∧
     (∀ name k (hk : k < (idsOf [⟨"x", 1, 0⟩] name).length),
        (idsOf [⟨"x", 1, 0⟩] name).get ⟨k, hk⟩ =
          (if (paramsOf [LocalOp.declare false "x"] name).head? = some true
           then 0 else 1) + k) ∧
     (∃ sF, specRun initialSpecScopes [LocalOp.declare false "x"] = some sF ∧
        ∀ loc code msg name, sF.frames ≠ [] →
          (resolveLocal
              ({ localScopes := [[("x", 1)]], localCount := [("x", 1)],
                 usedLocals := [], nominalBlocks := [], nominalBlockId := 0,
                 diags := [] } : NamingContext) loc code msg name).map Prod.snd =
            some ((specResolve sF name).map fun id => (⟨name, id, 0⟩ : NVar)))) :=
  ⟨rfl, declareLocal_id_and_resolution [LocalOp.declare false "x"] _ _ rfl⟩

/-! ## C5 -/

/-- C5 (amended): for a `break`, `continue` or `return` carrying an
explicit label, `resolve_nominal_label` walks the whole nominal-block
stack by label name to the most recent frame with that name and accepts
the usage exactly when the frame's kind permits it — loop frames permit
only break and continue, named-block frames permit only return,
lambda-return frames permit only return, and lambda-loop-capture frames
permit break and continue but not return; a kind mismatch records one
invalid-label diagnostic and resolves no label. -/
theorem resolveNominalLabel_kind_check (ctx : NamingContext)
    (usage : NominalBlockUsage) (loc : Loc) (name : Symbol)
    (pre post : List (Option Symbol × BlockLabel × NominalBlockType))
    (label : BlockLabel) (bt : NominalBlockType)
    (hpre : ∀ e ∈ pre, e.1 ≠ some name)
    (hstack : ctx.nominalBlocks = pre ++ (some name, label, bt) :: post) :
    ((∀ lt u, (NominalBlockType.Loop lt).isAcceptableUsage u = true ↔
        (u = .Break ∨ u = .Continue)) ∧
     (∀ u, NominalBlockType.Block.isAcceptableUsage u = true ↔ u = .Return) ∧
     (∀ u, NominalBlockType.LambdaReturn.isAcceptableUsage u = true ↔
        u = .Return) ∧
     (∀ u, NominalBlockType.LambdaLoopCapture.isAcceptableUsage u = true ↔
        (u = .Break ∨ u = .Continue))) ∧
    findNominalLabel ctx name = some (label, bt) ∧
    (bt.isAcceptableUsage usage = true →
      resolveNominalLabel ctx usage loc name = (ctx, some label)) ∧
    (bt.isAcceptableUsage usage = false →
      (resolveNominalLabel ctx usage loc name).2 = none ∧
      (resolveNominalLabel ctx usage loc name).1.diags = ctx.diags ++
        [{ code := DiagCode.InvalidLabel, loc := loc,
           msg := "Invalid usage of '" ++ usage.toStr ++ "' with a " ++
             bt.toStr ++ " block label",
           notes := [invalidLabelNote bt] }]) := by
  have hfind : findNominalLabel ctx name = some (label, bt) := by
    rw [findNominalLabel, hstack, List.find?_append]
    have h1 : (pre.find? fun e => decide (e.1 = some name)) = none := by
      rw [List.find?_eq_none]
      intro x hx
      simpa using hpre x hx
    rw [h1]
    simp
  refine ⟨⟨?_, ?_, ?_, ?_⟩, hfind, ?_, ?_⟩
  · intro lt u; cases u <;> simp [NominalBlockType.isAcceptableUsage]
  · intro u; cases u <;> simp [NominalBlockType.isAcceptableUsage]
  · intro u; cases u <;> simp [NominalBlockType.isAcceptableUsage]
  · intro u; cases u <;> simp [NominalBlockType.isAcceptableUsage]
  · intro hacc
    rw [resolveNominalLabel, hfind]
    simp [hacc]
  · intro hrej
    rw [resolveNominalLabel, hfind]
    simp [hrej]

/-- C5 counterexample: the claim says lambda frames permit return or
break but never continue; but `is_acceptable_usage` accepts `continue`
against a lambda-loop-capture frame (and rejects `break` against a
lambda-return frame), so `resolve_nominal_label` resolves a `continue`
to a named lambda-loop-capture frame without any diagnostic. -/
theorem lambda_label_usage_counterexample :
    NominalBlockType.LambdaLoopCapture.isAcceptableUsage
      NominalBlockUsage.Continue = true ∧
    NominalBlockType.LambdaReturn.isAcceptableUsage
      NominalBlockUsage.Break = false ∧
    resolveNominalLabel
      { nominalBlocks :=
          [(some "a", { label := ⟨"a", 0, 0⟩, isImplicit := false },
            NominalBlockType.LambdaLoopCapture)] }
      NominalBlockUsage.Continue 0 "a" =
      ({ nominalBlocks :=
          [(some "a", { label := ⟨"a", 0, 0⟩, isImplicit := false },
            NominalBlockType.LambdaLoopCapture)] },
       some { label := ⟨"a", 0, 0⟩, isImplicit := false }) :=
  ⟨rfl, rfl, rfl⟩

/-- Witness for C5 at a concrete input: a `break` against a named block
frame is a kind mismatch. -/
theorem resolveNominalLabel_kind_check_witness :
    ((∀ e ∈ ([] : List (Option Symbol × BlockLabel × NominalBlockType)),
        e.1 ≠ some "b") ∧
     ({ nominalBlocks :=
          [(some "b", { label := ⟨"b", 3, 0⟩, isImplicit := false },
            NominalBlockType.Block)] } : NamingContext).nominalBlocks =
        [] ++ (some "b", { label := ⟨"b", 3, 0⟩, isImplicit := false },
          NominalBlockType.Block) :: []) ∧
    (((∀ lt u, (NominalBlockType.Loop lt).isAcceptableUsage u = true ↔
        (u = .Break ∨ u = .Continue)) ∧
      (∀ u, NominalBlockType.Block.isAcceptableUsage u = true ↔ u = .Return) ∧
      (∀ u, NominalBlockType.LambdaReturn.isAcceptableUsage u = true ↔
        u = .Return) ∧
      (∀ u, NominalBlockType.LambdaLoopCapture.isAcceptableUsage u = true ↔
        (u = .Break ∨ u = .Continue))) ∧
     findNominalLabel
        ({ nominalBlocks :=
            [(some "b", { label := ⟨"b", 3, 0⟩, isImplicit := false },
              NominalBlockType.Block)] } : NamingContext) "b" =
        some ({ label := ⟨"b", 3, 0⟩, isImplicit := false },
          NominalBlockType.Block) ∧
     (NominalBlockType.Block.isAcceptableUsage NominalBlockUsage.Break = true →
       resolveNominalLabel
          ({ nominalBlocks :=
              [(some "b", { label := ⟨"b", 3, 0⟩, isImplicit := false },
                NominalBlockType.Block)] } : NamingContext)
          NominalBlockUsage.Break 7 "b" =
          (({ nominalBlocks :=
              [(some "b", { label := ⟨"b", 3, 0⟩, isImplicit := false },
                NominalBlockType.Block)] } : NamingContext),
           some { label := ⟨"b", 3, 0⟩, isImplicit := false })) ∧
     (NominalBlockType.Block.isAcceptableUsage NominalBlockUsage.Break = false →
       (resolveNominalLabel
          ({ nominalBlocks :=
              [(some "b", { label := ⟨"b", 3, 0⟩, isImplicit := false },
                NominalBlockType.Block)] } : NamingContext)
          NominalBlockUsage.Break 7 "b").2 = none ∧
       (resolveNominalLabel
          ({ nominalBlocks :=
              [(some "b", { label := ⟨"b", 3, 0⟩, isImplicit := false },
                NominalBlockType.Block)] } : NamingContext)
          NominalBlockUsage.Break 7 "b").1.diags =
        ({ nominalBlocks :=
            [(some "b", { label := ⟨"b", 3, 0⟩, isImplicit := false },
              NominalBlockType.Block)] } : NamingContext).diags ++
          [{ code := DiagCode.InvalidLabel, loc := 7,
             msg := "Invalid usage of '" ++ NominalBlockUsage.Break.toStr ++
               "' with a " ++ NominalBlockType.Block.toStr ++ " block label",
             notes := [invalidLabelNote NominalBlockType.Block] }])) :=
  ⟨⟨by simp, rfl⟩,
   resolveNominalLabel_kind_check _ NominalBlockUsage.Break 7 "b" [] []
     { label := ⟨"b", 3, 0⟩, isImplicit := false } NominalBlockType.Block
     (by simp) rfl⟩

/-! ## C6 and C9 supporting lemmas -/

theorem coreSubtype_error_sides (subst : Subst) (lhs rhs : Typ)
    (e : TypingError) (h : coreSubtype subst lhs rhs = .error e) :
    e.sides = some (lhs, rhs) := by
  unfold coreSubtype at h
  cases hopt : coreSubtypeOpt subst lhs rhs with
  | some r => rw [hopt] at h; simp at h
  | none =>
    rw [hopt] at h
    split at h
    · exact absurd h (by simp)
    · split at h
      · split at h <;>
          (simp only [Except.error.injEq] at h; subst h; rfl)
      · split at h <;>
          (simp only [Except.error.injEq] at h; subst h; rfl)
      · simp only [Except.error.injEq] at h; subst h; rfl
      · simp only [Except.error.injEq] at h; subst h; rfl

theorem coreJoin_error_sides (subst : Subst) (t1 t2 : Typ)
    (e : TypingError) (h : coreJoin subst t1 t2 = .error e) :
    e.sides = some (t1, t2) := by
  unfold coreJoin at h
  cases hopt : coreJoinOpt subst t1 t2 with
  | some r => rw [hopt] at h; simp at h
  | none =>
    rw [hopt] at h
    split at h
    · exact absurd h (by simp)
    · split at h
      · split at h <;>
          (simp only [Except.error.injEq] at h; subst h; rfl)
      · split at h <;>
          (simp only [Except.error.injEq] at h; subst h; rfl)
      · simp only [Except.error.injEq] at h; subst h; rfl

/-! ## C6 -/

/-- C6: when the unification underlying `subtype(lhs, rhs)` fails,
exactly one diagnostic is recorded — the `typing_error` diagnostic, whose
secondary labels quote both sides in their best-known substituted form —
and the function returns the expected (right-hand) side so checking can
continue. -/
theorem subtype_failure_one_diag_returns_expected
    (ctx : TCContext) (loc : Loc) (msg : String) (preLhs preRhs : Typ)
    (e : TypingError)
    (h : coreSubtype ctx.subst (readyTvars ctx.subst preLhs)
          (readyTvars ctx.subst preRhs) = .error e) :
    ((subtype ctx loc msg preLhs preRhs).2 = readyTvars ctx.subst preRhs) ∧
    ((subtype ctx loc msg preLhs preRhs).1.diags =
      ctx.diags ++ [typingError ctx true loc msg e]) ∧
    (∃ t1 t2, e.sides = some (t1, t2) ∧
      (∃ p ∈ (typingError ctx true loc msg e).secondary,
        mentions p.2 (errorFormat t1 ctx.subst)) ∧
      (∃ p ∈ (typingError ctx true loc msg e).secondary,
        mentions p.2 (errorFormat t2 ctx.subst))) := by
  have hsides := coreSubtype_error_sides _ _ _ _ h
  refine ⟨?_, ?_, ?_⟩
  · simp only [subtype, subtypeImpl, h]
  · simp only [subtype, subtypeImpl, h]
  · refine ⟨readyTvars ctx.subst preLhs, readyTvars ctx.subst preRhs, hsides, ?_, ?_⟩
    · cases e with
      | SubtypeError t1 t2 =>
        simp only [TypingError.sides, Option.some.injEq, Prod.mk.injEq] at hsides
        obtain ⟨h1, h2⟩ := hsides
        rw [← h1]
        exact ⟨(bestLoc ctx.subst t1, "Given: " ++ errorFormat t1 ctx.subst),
          by simp [typingError], "Given: ", "", by simp⟩
      | ArityMismatch n1 t1 n2 t2 =>
        simp only [TypingError.sides, Option.some.injEq, Prod.mk.injEq] at hsides
        obtain ⟨h1, h2⟩ := hsides
        rw [← h1]
        exact ⟨(bestLoc ctx.subst t1,
          "Given expression list of length " ++ toString n1 ++ ": " ++
            errorFormat t1 ctx.subst),
          by simp [typingError],
          "Given expression list of length " ++ toString n1 ++ ": ", "", by simp⟩
      | FunArityMismatch a1 t1 a2 t2 =>
        simp only [TypingError.sides, Option.some.injEq, Prod.mk.injEq] at hsides
        obtain ⟨h1, h2⟩ := hsides
        rw [← h1]
        exact ⟨(bestLoc ctx.subst t1,
          "Given lambda with " ++ toString a1 ++ " arguments: " ++
            errorFormat t1 ctx.subst),
          by simp [typingError],
          "Given lambda with " ++ toString a1 ++ " arguments: ", "", by simp⟩
      | Incompatible t1 t2 =>
        simp only [TypingError.sides, Option.some.injEq, Prod.mk.injEq] at hsides
        obtain ⟨h1, h2⟩ := hsides
        rw [← h1]
        exact ⟨(bestLoc ctx.subst t1, "Given: " ++ errorFormat t1 ctx.subst),
          by simp [typingError], "Given: ", "", by simp⟩
      | RecursiveType rloc => simp [TypingError.sides] at hsides
    · cases e with
      | SubtypeError t1 t2 =>
        simp only [TypingError.sides, Option.some.injEq, Prod.mk.injEq] at hsides
        obtain ⟨h1, h2⟩ := hsides
        rw [← h2]
        exact ⟨(bestLoc ctx.subst t2, "Expected: " ++ errorFormat t2 ctx.subst),
          by simp [typingError], "Expected: ", "", by simp⟩
      | ArityMismatch n1 t1 n2 t2 =>
        simp only [TypingError.sides, Option.some.injEq, Prod.mk.injEq] at hsides
        obtain ⟨h1, h2⟩ := hsides
        rw [← h2]
        exact ⟨(bestLoc ctx.subst t2,
          "Expected expression list of length " ++ toString n2 ++ ": " ++
            errorFormat t2 ctx.subst),
          by simp [typingError],
          "Expected expression list of length " ++ toString n2 ++ ": ", "", by simp⟩
      | FunArityMismatch a1 t1 a2 t2 =>
        simp only [TypingError.sides, Option.some.injEq, Prod.mk.injEq] at hsides
        obtain ⟨h1, h2⟩ := hsides
        rw [← h2]
        exact ⟨(bestLoc ctx.subst t2,
          "Expected a lambda with " ++ toString a2 ++ " arguments: " ++
            errorFormat t2 ctx.subst),
          by simp [typingError],
          "Expected a lambda with " ++ toString a2 ++ " arguments: ", "", by simp⟩
      | Incompatible t1 t2 =>
        simp only [TypingError.sides, Option.some.injEq, Prod.mk.injEq] at hsides
        obtain ⟨h1, h2⟩ := hsides
        rw [← h2]
        exact ⟨(bestLoc ctx.subst t2, "Expected: " ++ errorFormat t2 ctx.subst),
          by simp [typingError], "Expected: ", "", by simp⟩
      | RecursiveType rloc => simp [TypingError.sides] at hsides

/-- Witness for C6 at a concrete input: `()` against `bool` fails to
unify. -/
theorem subtype_failure_one_diag_returns_expected_witness :
    (coreSubtype ({} : TCContext).subst
        (readyTvars ({} : TCContext).subst Typ.Unit)
        (readyTvars ({} : TCContext).subst
          (Typ.Apply none (TypeName.Builtin "bool") [])) =
      .error (.Incompatible Typ.Unit
        (Typ.Apply none (TypeName.Builtin "bool") []))) ∧
    (((subtype ({} : TCContext) 0 "m" Typ.Unit
        (Typ.Apply none (TypeName.Builtin "bool") [])).2 =
          readyTvars ({} : TCContext).subst
            (Typ.Apply none (TypeName.Builtin "bool") [])) ∧
     ((subtype ({} : TCContext) 0 "m" Typ.Unit
        (Typ.Apply none (TypeName.Builtin "bool") [])).1.diags =
          ({} : TCContext).diags ++
            [typingError ({} : TCContext) true 0 "m"
              (.Incompatible Typ.Unit
                (Typ.Apply none (TypeName.Builtin "bool") []))]) ∧
     (∃ t1 t2,
        TypingError.sides
          (.Incompatible Typ.Unit
            (Typ.Apply none (TypeName.Builtin "bool") [])) = some (t1, t2) ∧
        (∃ p ∈ (typingError ({} : TCContext) true 0 "m"
            (.Incompatible Typ.Unit
              (Typ.Apply none (TypeName.Builtin "bool") []))).secondary,
          mentions p.2 (errorFormat t1 ({} : TCContext).subst)) ∧
        (∃ p ∈ (typingError ({} : TCContext) true 0 "m"
            (.Incompatible Typ.Unit
              (Typ.Apply none (TypeName.Builtin "bool") []))).secondary,
          mentions p.2 (errorFormat t2 ({} : TCContext).subst)))) :=
  ⟨by simp [coreSubtype, coreSubtypeOpt, readyTvars, unfoldType, unfoldTypeGo],
   subtype_failure_one_diag_returns_expected {} 0 "m" Typ.Unit
     (Typ.Apply none (TypeName.Builtin "bool") [])
     (.Incompatible Typ.Unit (Typ.Apply none (TypeName.Builtin "bool") []))
     (by simp [coreSubtype, coreSubtypeOpt, readyTvars, unfoldType,
       unfoldTypeGo])⟩

/-! ## C9 -/

/-- C9: when the unification underlying `subtype` or `join` fails, the
context's substitution map is left exactly as it was before the call —
the failed attempt runs on a clone and the original substitution is
restored. -/
theorem unification_failure_preserves_subst
    (ctx : TCContext) (loc : Loc) (msg : String)
    (preLhs preRhs preT1 preT2 : Typ) (e1 e2 : TypingError)
    (h1 : coreSubtype ctx.subst (readyTvars ctx.subst preLhs)
        (readyTvars ctx.subst preRhs) = .error e1)
    (h2 : coreJoin ctx.subst (readyTvars ctx.subst preT1)
        (readyTvars ctx.subst preT2) = .error e2) :
    ((subtypeImpl ctx loc msg preLhs preRhs).1.subst = ctx.subst) ∧
    ((subtype ctx loc msg preLhs preRhs).1.subst = ctx.subst) ∧
    ((joinOpt ctx loc msg preT1 preT2).1.subst = ctx.subst) ∧
    ((join ctx loc msg preT1 preT2).1.subst = ctx.subst) := by
  refine ⟨?_, ?_, ?_, ?_⟩ <;>
    simp only [subtypeImpl, subtype, joinOpt, join, h1, h2]

/-- Witness for C9 at a concrete input: both a subtype and a join of `()`
against `bool` fail. -/
theorem unification_failure_preserves_subst_witness :
    (coreSubtype ({} : TCContext).subst
        (readyTvars ({} : TCContext).subst Typ.Unit)
        (readyTvars ({} : TCContext).subst
          (Typ.Apply none (TypeName.Builtin "bool") [])) =
      .error (.Incompatible Typ.Unit
        (Typ.Apply none (TypeName.Builtin "bool") []))) ∧
    (coreJoin ({} : TCContext).subst
        (readyTvars ({} : TCContext).subst Typ.Unit)
        (readyTvars ({} : TCContext).subst
          (Typ.Apply none (TypeName.Builtin "bool") [])) =
      .error (.Incompatible Typ.Unit
        (Typ.Apply none (TypeName.Builtin "bool") []))) ∧
    (((subtypeImpl ({} : TCContext) 1 "w" Typ.Unit
        (Typ.Apply none (TypeName.Builtin "bool") [])).1.subst =
          ({} : TCContext).subst) ∧
     ((subtype ({} : TCContext) 1 "w" Typ.Unit
        (Typ.Apply none (TypeName.Builtin "bool") [])).1.subst =
          ({} : TCContext).subst) ∧
     ((joinOpt ({} : TCContext) 1 "w" Typ.Unit
        (Typ.Apply none (TypeName.Builtin "bool") [])).1.subst =
          ({} : TCContext).subst) ∧
     ((join ({} : TCContext) 1 "w" Typ.Unit
        (Typ.Apply none (TypeName.Builtin "bool") [])).1.subst =
          ({} : TCContext).subst)) :=
  ⟨by simp [coreSubtype, coreSubtypeOpt, readyTvars, unfoldType, unfoldTypeGo],
   by simp [coreJoin, coreJoinOpt, readyTvars, unfoldType, unfoldTypeGo],
   unification_failure_preserves_subst {} 1 "w" Typ.Unit
     (Typ.Apply none (TypeName.Builtin "bool") []) Typ.Unit
     (Typ.Apply none (TypeName.Builtin "bool") [])
     (.Incompatible Typ.Unit (Typ.Apply none (TypeName.Builtin "bool") []))
     (.Incompatible Typ.Unit (Typ.Apply none (TypeName.Builtin "bool") []))
     (by simp [coreSubtype, coreSubtypeOpt, readyTvars, unfoldType,
       unfoldTypeGo])
     (by simp [coreJoin, coreJoinOpt, readyTvars, unfoldType, unfoldTypeGo])⟩

/-! ## C2 -/

theorem abilities_foldl_constraints (abilities : AbilitySet) :
    ∀ (c : TCContext) (substTy : Typ),
      abilities.foldl (fun c2 declaredAbility =>
        addAbilityConstraint c2 0 (some (fieldAbilityMsg declaredAbility))
          substTy declaredAbility.requires) c =
      { c with
          constraints := c.constraints ++
            abilities.map (fun declaredAbility =>
              Constraint.AbilityConstraint 0
                (some (fieldAbilityMsg declaredAbility)) substTy
                declaredAbility.requires) } := by
  induction abilities with
  | nil => intro c substTy; simp
  | cons a as ih =>
    intro c substTy
    simp only [List.foldl_cons, List.map_cons]
    rw [ih]
    simp [addAbilityConstraint]

theorem fields_abilities_foldl_constraints (abilities : AbilitySet)
    (tps : List TParam) (fieldMap : List (Field × Nat × Typ)) :
    ∀ (c : TCContext),
      fieldMap.foldl (fun c fld =>
        let substTy :=
          substTparams (makeTparamSubst tps (tps.map fun _ => Typ.Anything))
            fld.2.2
        abilities.foldl (fun c2 declaredAbility =>
          addAbilityConstraint c2 0 (some (fieldAbilityMsg declaredAbility))
            substTy declaredAbility.requires) c) c =
      { c with
          constraints := c.constraints ++
            datatypeFieldAbilityConstraints abilities tps fieldMap } := by
  induction fieldMap with
  | nil => intro c; simp [datatypeFieldAbilityConstraints]
  | cons fld flds ih =>
    intro c
    simp only [List.foldl_cons]
    rw [abilities_foldl_constraints, ih]
    simp [datatypeFieldAbilityConstraints, List.flatMap_cons]

theorem phase1_foldl (fieldMap : List (Field × Nat × Typ)) :
    ∀ (c : TCContext), ∃ n bases,
      fieldMap.foldl (fun c fld =>
        let ct := instantiate c fld.2.2
        addBaseTypeConstraint ct.1 0 "Invalid field type" ct.2) c =
      { c with tvarCounter := n, constraints := c.constraints ++ bases } ∧
      ∀ b ∈ bases, ∃ loc msg ty, b = Constraint.BaseTypeConstraint loc msg ty := by
  induction fieldMap with
  | nil =>
    intro c
    exact ⟨c.tvarCounter, [], by simp, by simp⟩
  | cons fld flds ih =>
    intro c
    obtain ⟨n, bases, heq, hbase⟩ :=
      ih (addBaseTypeConstraint (instantiate c fld.2.2).1 0 "Invalid field type"
        (instantiate c fld.2.2).2)
    refine ⟨n, Constraint.BaseTypeConstraint 0 "Invalid field type"
      (instantiate c fld.2.2).2 :: bases, ?_, ?_⟩
    · simp only [List.foldl_cons]
      rw [heq]
      simp [addBaseTypeConstraint, instantiate]
    · intro b hb
      rw [List.mem_cons] at hb
      rcases hb with rfl | hb
      · exact ⟨0, "Invalid field type", (instantiate c fld.2.2).2, rfl⟩
      · exact hbase b hb

theorem checkConstraint_base_none (subst : Subst) (bases : List Constraint)
    (h : ∀ b ∈ bases, ∃ loc msg ty, b = Constraint.BaseTypeConstraint loc msg ty) :
    bases.filterMap (checkConstraint subst) = [] := by
  induction bases with
  | nil => rfl
  | cons b bs ih =>
    obtain ⟨loc, msg, ty, rfl⟩ := h b (by simp)
    simp only [List.filterMap_cons, checkConstraint]
    exact ih fun b hb => h b (by simp [hb])

theorem structDef_diags (ctx : TCContext) (abilities : AbilitySet)
    (tps : List TParam) (fieldMap : List (Field × Nat × Typ))
    (hempty : ctx.constraints = []) :
    structDef ctx abilities tps (.Defined fieldMap) =
      { ctx with
          tvarCounter := (structDef ctx abilities tps (.Defined fieldMap)).tvarCounter,
          diags := ctx.diags ++
            (datatypeFieldAbilityConstraints abilities tps fieldMap).filterMap
              (checkConstraint ctx.subst) } := by
  obtain ⟨n, bases, heq, hbase⟩ := phase1_foldl fieldMap ctx
  have step : structDef ctx abilities tps (.Defined fieldMap) =
      { ctx with
          tvarCounter := n,
          diags := ctx.diags ++
            (datatypeFieldAbilityConstraints abilities tps fieldMap).filterMap
              (checkConstraint ctx.subst) } := by
    simp only [structDef]
    rw [heq]
    have hsolve1 : solveConstraints
        { ctx with tvarCounter := n, constraints := ctx.constraints ++ bases } =
        { ctx with tvarCounter := n, constraints := [] } := by
      simp [solveConstraints, hempty,
        checkConstraint_base_none ctx.subst bases hbase, hempty]
    rw [hsolve1, fields_abilities_foldl_constraints]
    simp [solveConstraints, hempty]
  rw [step]

/-- `variant_def` performs the same checks as `struct_def` on a defined
field map. -/
theorem variantDef_eq_structDef (ctx : TCContext) (abilities : AbilitySet)
    (tps : List TParam) (fieldMap : List (Field × Nat × Typ)) :
    variantDef ctx abilities tps (.Defined fieldMap) =
      structDef ctx abilities tps (.Defined fieldMap) := rfl

/-- C2: for a struct or enum variant with declared ability set `A`, every
field type — with the datatype's own type parameters substituted by
`Anything` — receives one ability constraint per ability in `A`
(requiring `a.requires()`); the resulting diagnostics are exactly those
of these per-field obligations, so a datatype declared with an ability
whose field type lacks the required ability fails to typecheck with an
ability-violation diagnostic; and `Anything` satisfies every ability, so
the check is independent of how callers instantiate the datatype. -/
theorem datatype_field_ability_discharge
    (ctx : TCContext) (abilities : AbilitySet) (tps : List TParam)
    (fieldMap : List (Field × Nat × Typ)) (a : Ability)
    (fld : Field × Nat × Typ)
    (hempty : ctx.constraints = [])
    (ha : a ∈ abilities) (hf : fld ∈ fieldMap)
    (hlack : hasAbility
        (unfoldType ctx.subst
          (substTparams (makeTparamSubst tps (tps.map fun _ => Typ.Anything))
            fld.2.2))
        a.requires = false) :
    (Constraint.AbilityConstraint 0 (some (fieldAbilityMsg a))
        (substTparams (makeTparamSubst tps (tps.map fun _ => Typ.Anything))
          fld.2.2)
        a.requires ∈ datatypeFieldAbilityConstraints abilities tps fieldMap) ∧
    ((structDef ctx abilities tps (.Defined fieldMap)).diags =
       ctx.diags ++
         (datatypeFieldAbilityConstraints abilities tps fieldMap).filterMap
           (checkConstraint ctx.subst)) ∧
    (∃ d ∈ (structDef ctx abilities tps (.Defined fieldMap)).diags,
       d.code = DiagCode.AbilityConstraint ∧ d.msg = fieldAbilityMsg a) ∧
    (∃ d ∈ (variantDef ctx abilities tps (.Defined fieldMap)).diags,
       d.code = DiagCode.AbilityConstraint ∧ d.msg = fieldAbilityMsg a) ∧
    (∀ ability, hasAbility Typ.Anything ability = true) := by
  have hmem : Constraint.AbilityConstraint 0 (some (fieldAbilityMsg a))
      (substTparams (makeTparamSubst tps (tps.map fun _ => Typ.Anything))
        fld.2.2) a.requires ∈
      datatypeFieldAbilityConstraints abilities tps fieldMap := by
    simp only [datatypeFieldAbilityConstraints, List.mem_flatMap]
    exact ⟨fld, hf, by simp only [List.mem_map]; exact ⟨a, ha, rfl⟩⟩
  have hdiags := structDef_diags ctx abilities tps fieldMap hempty
  have hdiags' : (structDef ctx abilities tps (.Defined fieldMap)).diags =
      ctx.diags ++
        (datatypeFieldAbilityConstraints abilities tps fieldMap).filterMap
          (checkConstraint ctx.subst) := by
    rw [hdiags]
  have hviol : ∃ d ∈ (structDef ctx abilities tps (.Defined fieldMap)).diags,
      d.code = DiagCode.AbilityConstraint ∧ d.msg = fieldAbilityMsg a := by
    refine ⟨{ code := DiagCode.AbilityConstraint, loc := 0,
              msg := fieldAbilityMsg a }, ?_, rfl, rfl⟩
    rw [hdiags']
    apply List.mem_append_right
    rw [List.mem_filterMap]
    refine ⟨_, hmem, ?_⟩
    have hlack' : hasAbility
        (unfoldType ctx.subst
          (substTparams (makeTparamSubst tps (List.replicate tps.length Typ.Anything))
            fld.2.2))
        a.requires = false := by
      simpa using hlack
    simp [checkConstraint, hlack']
  refine ⟨hmem, hdiags', hviol, ?_, fun ability => rfl⟩
  rw [variantDef_eq_structDef]
  exact hviol

/-- Witness for C2 at a concrete input: a struct declared `copy` with a
lambda-typed field (lambda types have no abilities). -/
theorem datatype_field_ability_discharge_witness :
    (({} : TCContext).constraints = [] ∧
     Ability.Copy ∈ [Ability.Copy] ∧
     ("f", 0, Typ.Fun [] Typ.Unit) ∈ [("f", 0, Typ.Fun [] Typ.Unit)] ∧
     hasAbility
       (unfoldType ({} : TCContext).subst
         (substTparams (makeTparamSubst [] (List.map (fun _ => Typ.Anything) ([] : List TParam)))
           ("f", 0, Typ.Fun [] Typ.Unit).2.2))
       Ability.Copy.requires = false) ∧
    ((Constraint.AbilityConstraint 0 (some (fieldAbilityMsg Ability.Copy))
        (substTparams (makeTparamSubst [] (List.map (fun _ => Typ.Anything) ([] : List TParam)))
          ("f", 0, Typ.Fun [] Typ.Unit).2.2)
        Ability.Copy.requires ∈
        datatypeFieldAbilityConstraints [Ability.Copy] []
          [("f", 0, Typ.Fun [] Typ.Unit)]) ∧
     ((structDef ({} : TCContext) [Ability.Copy] []
        (.Defined [("f", 0, Typ.Fun [] Typ.Unit)])).diags =
       ({} : TCContext).diags ++
         (datatypeFieldAbilityConstraints [Ability.Copy] []
           [("f", 0, Typ.Fun [] Typ.Unit)]).filterMap
           (checkConstraint ({} : TCContext).subst)) ∧
     (∃ d ∈ (structDef ({} : TCContext) [Ability.Copy] []
        (.Defined [("f", 0, Typ.Fun [] Typ.Unit)])).diags,
       d.code = DiagCode.AbilityConstraint ∧
       d.msg = fieldAbilityMsg Ability.Copy) ∧
     (∃ d ∈ (variantDef ({} : TCContext) [Ability.Copy] []
        (.Defined [("f", 0, Typ.Fun [] Typ.Unit)])).diags,
       d.code = DiagCode.AbilityConstraint ∧
       d.msg = fieldAbilityMsg Ability.Copy) ∧
     (∀ ability, hasAbility Typ.Anything ability = true)) :=
  ⟨⟨rfl, List.mem_cons_self _ _, List.mem_cons_self _ _, rfl⟩,
   datatype_field_ability_discharge {} [Ability.Copy] []
     [("f", 0, Typ.Fun [] Typ.Unit)] Ability.Copy
     ("f", 0, Typ.Fun [] Typ.Unit) rfl (List.mem_cons_self _ _)
     (List.mem_cons_self _ _) rfl⟩

/-! ## C7 -/

theorem countBinders_add_countEllipses (args : List (Ellipsis α)) :
    countBinders args + countEllipses args = args.length := by
  induction args with
  | nil => rfl
  | cons a as ih =>
    cases a <;> simp [countBinders, countEllipses, List.filter_cons] at ih ⊢ <;>
      omega

theorem expandPositionalEllipsis_length (missing : Int)
    (rep : Loc → α) (args : List (Ellipsis α)) :
    (expandPositionalEllipsis missing args rep).length =
      countBinders args + countEllipses args * (missing + 1).toNat := by
  simp only [expandPositionalEllipsis, List.length_map, List.enum_length]
  induction args with
  | nil => simp [countBinders, countEllipses]
  | cons a as ih =>
    cases a with
    | Binder p =>
      simp only [List.map_cons, List.flatten_cons, List.length_append, ih,
        List.length_singleton]
      simp [countBinders, countEllipses, List.filter_cons]
      omega
    | Ellipsis eloc =>
      simp only [List.map_cons, List.flatten_cons, List.length_append, ih,
        List.length_replicate]
      simp [countBinders, countEllipses, List.filter_cons]
      ring

/-- C7 (amended): a positional constructor pattern with one ellipsis
expands to exactly `max 0 (arity − explicit)` wildcards, so the expanded
pattern has `max arity explicit` fields; whenever the explicit
sub-patterns do not outnumber the declared arity the total equals the
arity exactly, with zero wildcards when they already cover every field;
a named constructor pattern whose bound field names are distinct declared
fields expands to one wildcard per missing declared field, reaching the
declared arity exactly. -/
theorem ellipsis_expansion_arity (fieldInfo : FieldInfo)
    (args : List (Ellipsis EPat)) (hone : countEllipses args = 1) :
    ((positionalEllipsisExpansion fieldInfo args).length =
      max fieldInfo.fieldCount (countBinders args)) ∧
    (countBinders args ≤ fieldInfo.fieldCount →
      (positionalEllipsisExpansion fieldInfo args).length =
        fieldInfo.fieldCount) ∧
    (countBinders args = fieldInfo.fieldCount →
      (positionalEllipsisExpansion fieldInfo args).length =
        countBinders args) ∧
    (∀ (fields : List Field) (nargs : List (Field × Nat × EPat))
        (headLoc eloc : Loc),
      fields.Nodup → (nargs.map Prod.fst).Nodup →
      (∀ k ∈ nargs.map Prod.fst, k ∈ fields) →
      (expandNamedEllipsis (FieldInfo.Named fields) headLoc eloc nargs
        (fun _ => EPat.Wildcard)).length =
        (FieldInfo.Named fields).fieldCount) := by
  have hsplit := countBinders_add_countEllipses args
  have hmax : (positionalEllipsisExpansion fieldInfo args).length =
      max fieldInfo.fieldCount (countBinders args) := by
    simp only [positionalEllipsisExpansion, expandPositionalEllipsis_length,
      hone, one_mul]
    have hlen : (args.length : Int) = (countBinders args : Int) + 1 := by
      omega
    rw [hlen]
    have : ((fieldInfo.fieldCount : Int) - ((countBinders args : Int) + 1) + 1)
        = (fieldInfo.fieldCount : Int) - (countBinders args : Int) := by ring
    rw [this, Int.toNat_sub]
    omega
  refine ⟨hmax, ?_, ?_, ?_⟩
  · intro hle
    rw [hmax]
    omega
  · intro heq
    rw [hmax]
    omega
  · intro fields nargs headLoc eloc hnf hnk hsub
    simp only [expandNamedEllipsis, List.length_append, List.length_map,
      List.enum_length, FieldInfo.fieldCount]
    have hperm : (fields.filter fun f =>
        decide (f ∈ nargs.map Prod.fst)).Perm (nargs.map Prod.fst) := by
      rw [List.perm_ext_iff_of_nodup (hnf.filter _) hnk]
      intro a
      simp only [List.mem_filter, decide_eq_true_eq]
      constructor
      · rintro ⟨-, h⟩
        exact h
      · intro h
        exact ⟨hsub a h, h⟩
    have hlenf := hperm.length_eq
    have hsplit2 : (fields.filter fun f =>
        decide (f ∈ nargs.map Prod.fst)).length +
        (fields.filter fun f => !(decide (f ∈ nargs.map Prod.fst))).length =
        fields.length := by
      have := (List.filter_append_perm
        (fun f => decide (f ∈ nargs.map Prod.fst)) fields).length_eq
      simpa [List.length_append] using this
    have hnot : (fields.filter fun f => decide (f ∉ nargs.map Prod.fst)) =
        fields.filter fun f => !(decide (f ∈ nargs.map Prod.fst)) := by
      apply List.filter_congr
      intro x hx
      simp
    rw [hnot]
    have hkeys : (nargs.map Prod.fst).length = nargs.length :=
      List.length_map _ _
    omega

/-- C7 counterexample: with declared arity 1 and two explicit
sub-patterns plus an ellipsis, the ellipsis expands to zero wildcards
and the expanded pattern has 2 fields, not the declared arity 1. -/
theorem ellipsis_expansion_counterexample :
    (positionalEllipsisExpansion (FieldInfo.Positional 1)
      [Ellipsis.Binder (EPat.Binder "a"), Ellipsis.Binder (EPat.Binder "b"),
       Ellipsis.Ellipsis 0]).length = 2 ∧
    (FieldInfo.Positional 1).fieldCount = 1 ∧ (2 : Nat) ≠ 1 :=
  ⟨rfl, rfl, by decide⟩

/-- Witness for C7 at a concrete input: one explicit sub-pattern plus an
ellipsis against arity 3. -/
theorem ellipsis_expansion_arity_witness :
    (countEllipses [Ellipsis.Binder (EPat.Binder "x"),
      Ellipsis.Ellipsis 0] = 1) ∧
    (((positionalEllipsisExpansion (FieldInfo.Positional 3)
        [Ellipsis.Binder (EPat.Binder "x"), Ellipsis.Ellipsis 0]).length =
      max (FieldInfo.Positional 3).fieldCount
        (countBinders [Ellipsis.Binder (EPat.Binder "x"),
          Ellipsis.Ellipsis 0])) ∧
     (countBinders [Ellipsis.Binder (EPat.Binder "x"), Ellipsis.Ellipsis 0] ≤
        (FieldInfo.Positional 3).fieldCount →
      (positionalEllipsisExpansion (FieldInfo.Positional 3)
        [Ellipsis.Binder (EPat.Binder "x"), Ellipsis.Ellipsis 0]).length =
        (FieldInfo.Positional 3).fieldCount) ∧
     (countBinders [Ellipsis.Binder (EPat.Binder "x"), Ellipsis.Ellipsis 0] =
        (FieldInfo.Positional 3).fieldCount →
      (positionalEllipsisExpansion (FieldInfo.Positional 3)
        [Ellipsis.Binder (EPat.Binder "x"), Ellipsis.Ellipsis 0]).length =
        countBinders [Ellipsis.Binder (EPat.Binder "x"),
          Ellipsis.Ellipsis 0]) ∧
     (∀ (fields : List Field) (nargs : List (Field × Nat × EPat))
         (headLoc eloc : Loc),
       fields.Nodup → (nargs.map Prod.fst).Nodup →
       (∀ k ∈ nargs.map Prod.fst, k ∈ fields) →
       (expandNamedEllipsis (FieldInfo.Named fields) headLoc eloc nargs
         (fun _ => EPat.Wildcard)).length =
         (FieldInfo.Named fields).fieldCount)) :=
  ⟨rfl, ellipsis_expansion_arity (FieldInfo.Positional 3)
    [Ellipsis.Binder (EPat.Binder "x"), Ellipsis.Ellipsis 0] rfl⟩

/-! ## C3 -/

/-- C3: at a macro call site the method-call receiver is the single
by-value argument (a typed expression, evaluated before substitution),
while every other argument — and every argument of a non-method macro
call — is passed by name; a by-name argument is kept as an unevaluated
expression, unchanged when it is already a block, a lambda or an error
sentinel, and otherwise wrapped in an unnamed block carrying the caller's
current use-fun scope color with the argument as its only sequence
item. -/
theorem macro_args_by_value_by_name (ctx : TCContext) (firstArg : TExp)
    (nargs : List NExp) :
    ((macroMethodCallArgs ctx firstArg nargs).head? =
      some (.ByValue firstArg)) ∧
    ((macroMethodCallArgs ctx firstArg nargs).length = nargs.length + 1) ∧
    ((macroMethodCallArgs ctx firstArg nargs).tail =
      nargs.map fun e => .ByName (convertMacroArgToBlock ctx e)) ∧
    (macroModuleCallArgs ctx nargs =
      nargs.map fun e => .ByName (convertMacroArgToBlock ctx e)) ∧
    (∀ e, isBlockLambdaOrError e = true → convertMacroArgToBlock ctx e = e) ∧
    (∀ e, isBlockLambdaOrError e = false →
      convertMacroArgToBlock ctx e =
        NExp.Block none none ctx.currentCallColor [NSeqItem.Seq e]) := by
  refine ⟨rfl, by simp [macroMethodCallArgs], rfl, rfl, ?_, ?_⟩
  · intro e he
    cases e <;> simp_all [isBlockLambdaOrError, convertMacroArgToBlock]
  · intro e he
    cases e <;> simp_all [isBlockLambdaOrError, convertMacroArgToBlock]

/-- Witness for C3 at a concrete input: one literal argument after the
receiver. -/
theorem macro_args_by_value_by_name_witness :
    ((macroMethodCallArgs ({} : TCContext)
        (TExp.mk Typ.Unit 0 (TUExp.Value (Value.U8 1)))
        [NExp.Value (Value.U64 2)]).head? =
      some (.ByValue (TExp.mk Typ.Unit 0 (TUExp.Value (Value.U8 1))))) ∧
    ((macroMethodCallArgs ({} : TCContext)
        (TExp.mk Typ.Unit 0 (TUExp.Value (Value.U8 1)))
        [NExp.Value (Value.U64 2)]).length =
      [NExp.Value (Value.U64 2)].length + 1) ∧
    ((macroMethodCallArgs ({} : TCContext)
        (TExp.mk Typ.Unit 0 (TUExp.Value (Value.U8 1)))
        [NExp.Value (Value.U64 2)]).tail =
      [NExp.Value (Value.U64 2)].map fun e =>
        .ByName (convertMacroArgToBlock ({} : TCContext) e)) ∧
    (macroModuleCallArgs ({} : TCContext) [NExp.Value (Value.U64 2)] =
      [NExp.Value (Value.U64 2)].map fun e =>
        .ByName (convertMacroArgToBlock ({} : TCContext) e)) ∧
    (∀ e, isBlockLambdaOrError e = true →
      convertMacroArgToBlock ({} : TCContext) e = e) ∧
    (∀ e, isBlockLambdaOrError e = false →
      convertMacroArgToBlock ({} : TCContext) e =
        NExp.Block none none ({} : TCContext).currentCallColor
          [NSeqItem.Seq e]) :=
  macro_args_by_value_by_name {} (TExp.mk Typ.Unit 0 (TUExp.Value (Value.U8 1)))
    [NExp.Value (Value.U64 2)]

/-! ## C8 -/

theorem checkMutability_preserves (ctx : TCContext) (eloc : Loc)
    (usage : String) (v : NVar) :
    ((checkMutability ctx eloc usage v).constraints = ctx.constraints) ∧
    ((checkMutability ctx eloc usage v).featureMove2024Paths =
      ctx.featureMove2024Paths) := by
  cases hm : (ctx.mutability.find? v).getD false <;>
    simp [checkMutability, markMutableUsage, hm]

theorem expDottedToBorrow_preserves (mut_ : Bool) :
    ∀ (edot : ExpDotted) (loc : Loc) (ctx : TCContext),
      ((expDottedToBorrow ctx loc mut_ edot).1.constraints =
        ctx.constraints) ∧
      ((expDottedToBorrow ctx loc mut_ edot).1.featureMove2024Paths =
        ctx.featureMove2024Paths) := by
  intro edot
  induction edot with
  | Exp dloc e =>
    intro loc ctx
    exact ⟨rfl, rfl⟩
  | TmpBorrow dloc eb ty =>
    intro loc ctx
    simp only [expDottedToBorrow]
    cases eb.uexp with
    | Use v =>
      cases mut_ with
      | false => exact ⟨rfl, rfl⟩
      | true =>
        exact ⟨(checkMutability_preserves ctx loc "mutable borrow" v).1,
          (checkMutability_preserves ctx loc "mutable borrow" v).2⟩
    | Move var fromUser => exact ⟨rfl, rfl⟩
    | Copy var fromUser => exact ⟨rfl, rfl⟩
    | BorrowLocal isMut v => exact ⟨rfl, rfl⟩
    | TempBorrow isMut e => exact ⟨rfl, rfl⟩
    | Borrow isMut e f => exact ⟨rfl, rfl⟩
    | Dereference e => exact ⟨rfl, rfl⟩
    | Constant m c => exact ⟨rfl, rfl⟩
    | Value v => exact ⟨rfl, rfl⟩
    | UnresolvedError => exact ⟨rfl, rfl⟩
  | Dot dloc lhs f fty ih =>
    intro loc ctx
    obtain ⟨ihc, ihf⟩ := ih dloc ctx
    simp only [expDottedToBorrow]
    constructor
    · split
      · split <;> simpa using ihc
      · simpa using ihc
    · split
      · split <;> simpa using ihf
      · simpa using ihf

/-- C8 (amended): a `Use` or `Copy` access of a dotted field chain whose
terminal access is a field access resolves to an implicit immutable
borrow of the chain followed by a dereference, adding an implicit copy
ability constraint on the accessed field's type; a `Move` of such a
chain is *rejected* — it degrades to the error sentinel with no copy
constraint and (under the Move-2024-paths feature) an invalid-move
diagnostic; a plain-variable access moves or copies directly without a
synthetic borrow (`Copy` still adds its copy ability constraint). -/
theorem dotted_access_owned_value
    (ctx : TCContext) (eloc dloc mloc cloc lloc : Loc) (lhs : ExpDotted)
    (f : Field) (fieldTy innerTy ty : Typ) (v : NVar) :
    ((expDottedToOwnedValue ctx .Use eloc (.Dot dloc lhs f fieldTy) innerTy).2 =
      TExp.mk innerTy eloc (.Dereference
        (expDottedToBorrow ctx eloc false (.Dot dloc lhs f fieldTy)).2)) ∧
    ((expDottedToOwnedValue ctx .Use eloc (.Dot dloc lhs f fieldTy)
        innerTy).1.constraints =
      ctx.constraints ++ [Constraint.AbilityConstraint eloc
        (some ("Invalid implicit copy of field '" ++ f ++
          "' without the 'copy' ability")) innerTy Ability.Copy]) ∧
    ((expDottedToOwnedValue ctx (.Copy cloc) eloc (.Dot dloc lhs f fieldTy)
        innerTy).2 =
      TExp.mk innerTy eloc (.Dereference
        (expDottedToBorrow ctx eloc false (.Dot dloc lhs f fieldTy)).2)) ∧
    ((expDottedToOwnedValue ctx (.Copy cloc) eloc (.Dot dloc lhs f fieldTy)
        innerTy).1.constraints =
      ctx.constraints ++ [Constraint.AbilityConstraint eloc
        (some ("Invalid 'copy' of field '" ++ f ++
          "' without the 'copy' ability")) innerTy Ability.Copy]) ∧
    ((expDottedToOwnedValue ctx (.Move mloc) eloc (.Dot dloc lhs f fieldTy)
        innerTy).2 =
      TExp.mk (errorType eloc) eloc .UnresolvedError) ∧
    ((expDottedToOwnedValue ctx (.Move mloc) eloc (.Dot dloc lhs f fieldTy)
        innerTy).1.constraints = ctx.constraints) ∧
    (ctx.featureMove2024Paths = true →
      (expDottedToOwnedValue ctx (.Move mloc) eloc (.Dot dloc lhs f fieldTy)
          innerTy).1.diags =
        (expDottedToBorrow ctx eloc false (.Dot dloc lhs f fieldTy)).1.diags ++
          [{ code := DiagCode.InvalidMoveOp, loc := mloc,
             msg := "Invalid 'move'. 'move' works only with variables, e.g. 'move x'. 'move' on a path access is not supported" }]) ∧
    (expDottedUsagePlain ctx (.Move mloc) eloc (TExp.mk ty lloc (.Use v)) =
      (ctx, TExp.mk ty eloc (.Move v true))) ∧
    (expDottedUsagePlain ctx (.Copy cloc) eloc (TExp.mk ty lloc (.Use v)) =
      (addAbilityConstraint ctx eloc
        (some "Invalid 'copy' of owned value without the 'copy' ability")
        ty Ability.Copy,
       TExp.mk ty eloc (.Copy v true))) := by
  obtain ⟨hc, hf⟩ := expDottedToBorrow_preserves false
    (.Dot dloc lhs f fieldTy) eloc ctx
  refine ⟨rfl, ?_, rfl, ?_, rfl, ?_, ?_, rfl, rfl⟩
  · simp [expDottedToOwnedValue, addAbilityConstraint, hc, Ability.toStr,
      String.append_assoc]
  · simp only [expDottedToOwnedValue, checkFeature]
    split <;>
      simp [addAbilityConstraint, hc, Ability.toStr, String.append_assoc]
  · simp only [expDottedToOwnedValue, checkFeature]
    split <;> simp [hc]
  · intro hfeat
    have hft : (expDottedToBorrow ctx eloc false
        (ExpDotted.Dot dloc lhs f fieldTy)).1.featureMove2024Paths = true :=
      hf.trans hfeat
    simp [expDottedToOwnedValue, checkFeature, hft]

/-- C8 counterexample: `move` of the dotted chain `x.f` does not become
a borrow-then-dereference with a copy constraint — it produces the
unresolved-error sentinel, adds no constraint, and records an
invalid-move diagnostic. -/
theorem dotted_move_counterexample :
    ((expDottedToOwnedValue ({} : TCContext) (.Move 5) 1
        (.Dot 0 (.TmpBorrow 0
          (TExp.mk (Typ.Apply none (TypeName.ModuleType "m" "S") []) 0
            (TUExp.Use ⟨"x", 0, 0⟩))
          (Typ.Apply none (TypeName.ModuleType "m" "S") [])) "f"
          (Typ.Apply none (TypeName.Builtin "u64") []))
        (Typ.Apply none (TypeName.Builtin "u64") [])).2 =
      TExp.mk Typ.UnresolvedError 1 TUExp.UnresolvedError) ∧
    ((expDottedToOwnedValue ({} : TCContext) (.Move 5) 1
        (.Dot 0 (.TmpBorrow 0
          (TExp.mk (Typ.Apply none (TypeName.ModuleType "m" "S") []) 0
            (TUExp.Use ⟨"x", 0, 0⟩))
          (Typ.Apply none (TypeName.ModuleType "m" "S") [])) "f"
          (Typ.Apply none (TypeName.Builtin "u64") []))
        (Typ.Apply none (TypeName.Builtin "u64") [])).1.constraints = []) ∧
    ((expDottedToOwnedValue ({} : TCContext) (.Move 5) 1
        (.Dot 0 (.TmpBorrow 0
          (TExp.mk (Typ.Apply none (TypeName.ModuleType "m" "S") []) 0
            (TUExp.Use ⟨"x", 0, 0⟩))
          (Typ.Apply none (TypeName.ModuleType "m" "S") [])) "f"
          (Typ.Apply none (TypeName.Builtin "u64") []))
        (Typ.Apply none (TypeName.Builtin "u64") [])).1.diags.map Diag.code =
      [DiagCode.InvalidMoveOp]) ∧
    (∀ e, TExp.mk Typ.UnresolvedError 1 TUExp.UnresolvedError ≠
      TExp.mk (Typ.Apply none (TypeName.Builtin "u64") []) 1
        (TUExp.Dereference e)) := by
  refine ⟨rfl, rfl, rfl, ?_⟩
  intro e h
  injection h with h1 h2 h3
  cases h1

/-- Witness for C8 at a concrete input: `Use` of `x.f` (the
feature-gate implication is discharged at the default context, where the
feature is on). -/
theorem dotted_access_owned_value_witness :
    (({} : TCContext).featureMove2024Paths = true) ∧
    ((expDottedToOwnedValue ({} : TCContext) (.Move 5) 1
        (.Dot 0 (.TmpBorrow 0
          (TExp.mk (Typ.Apply none (TypeName.ModuleType "n" "T") []) 0
            (TUExp.Use ⟨"y", 0, 0⟩))
          (Typ.Apply none (TypeName.ModuleType "n" "T") [])) "g"
          Typ.Unit) Typ.Unit).1.diags =
      (expDottedToBorrow ({} : TCContext) 1 false
        (.Dot 0 (.TmpBorrow 0
          (TExp.mk (Typ.Apply none (TypeName.ModuleType "n" "T") []) 0
            (TUExp.Use ⟨"y", 0, 0⟩))
          (Typ.Apply none (TypeName.ModuleType "n" "T") [])) "g"
          Typ.Unit)).1.diags ++
        [{ code := DiagCode.InvalidMoveOp, loc := 5,
           msg := "Invalid 'move'. 'move' works only with variables, e.g. 'move x'. 'move' on a path access is not supported" }]) :=
  ⟨rfl,
   ((dotted_access_owned_value {} 1 0 5 2 3
      (.TmpBorrow 0
        (TExp.mk (Typ.Apply none (TypeName.ModuleType "n" "T") []) 0
          (TUExp.Use ⟨"y", 0, 0⟩))
        (Typ.Apply none (TypeName.ModuleType "n" "T") []))
      "g" Typ.Unit Typ.Unit Typ.Unit ⟨"y", 0, 0⟩).2.2.2.2.2.2.1) rfl⟩

/-! ## C10 -/

/-- C10: in `match_pattern`, a literal pattern adds a copy ability
constraint on the literal's type unconditionally — for a by-value
subject and under a reference subject alike — while a wildcard pattern
adds its drop ability constraint only when the subject is matched by
value (`mut_ref = none`), and adds no constraint under a reference
subject. -/
theorem matchPattern_literal_wildcard (env : List EnumInfo)
    (ctx : TCContext) (ploc : Loc) (v : Value) (mutRef : Option Bool) :
    ((matchPattern env ctx (.Literal ploc v) mutRef).1.constraints =
      ctx.constraints ++ [Constraint.AbilityConstraint ploc
        (some "Cannot ignore values without the 'copy' ability. Literal patterns copy their values for equality checking")
        (match v with
         | .InferredNum _ => Typ.Var ctx.tvarCounter
         | _ => (Value.typeOf v).getD .UnresolvedError)
        Ability.Copy]) ∧
    ((matchPattern env ctx (.Wildcard ploc) mutRef).1.constraints =
      ctx.constraints ++
        (if mutRef.isNone then
          [Constraint.AbilityConstraint ploc
            (some "Cannot ignore values without the 'drop' ability. '_' patterns discard their values")
            (Typ.Var ctx.tvarCounter) Ability.Drop]
         else [])) := by
  constructor
  · cases v <;>
      simp [matchPattern, makeNumTvar, makeTvar, addAbilityConstraint]
  · cases mutRef <;>
      simp [matchPattern, makeTvar, addAbilityConstraint]

end Move
